import Mathlib

/-!
# Verification of the CI/CD healing-agent core

A shallow embedding, in Lean 4, of the healing orchestration and
patch-safety subsystem of the CI/CD automation agent:

* the fingerprint engine (`app/utils/fix_fingerprint.py`,
  `app/utils/patch_hash.py`),
* bug-type priorities and the priority sort
  (`app/parser/classification.py`, `app/agents/orchestrator.py`),
* the iteration-outcome classifier (`_classify_iteration_outcome`),
* the bounded fix-history store (`_FixHistoryStore`),
* the patch-locality validator (`app/utils/patch_locality.py`) and the
  fix agent's validation gates (`app/agents/fix_agent.py`),
* the commit/push gate (`Orchestrator.run`, step (h)),
* the wall-clock guardrail of the healing loop,
* the git agent's push-safety gates and the apply-fix path guard
  (`app/agents/git_agent.py`).

Python strings are modelled as Lean `String`, ints as `Nat`/`Int`
(the quantities involved are non-negative counters and line numbers),
and floats (elapsed seconds, confidence, effectiveness scores) as `ℚ` —
every float the embedded code manipulates is an exact small decimal, so
rational arithmetic is faithful.  SHA-256 is implemented bit-exactly on
bytes (`Nat` words reduced mod 2^32).  All definitions are executable.
-/

namespace HealAgent

/-! ## Small string helpers

Lean's built-in `String.toLower`, `String.startsWith`, … do not reduce
inside the kernel, so the few Python string primitives the embedded code
needs are re-implemented here on `List Char`.
-/

/-- ASCII lower-casing of one character (Python `str.lower` on the
ASCII range; the branch names and status strings involved are ASCII). -/
def lowerChar (c : Char) : Char :=
  if 'A' ≤ c ∧ c ≤ 'Z' then Char.ofNat (c.toNat + 32) else c

/-- Python `s.lower()` (ASCII range). -/
def pyLower (s : String) : String := ⟨s.data.map lowerChar⟩

/-- Python whitespace characters stripped by `str.strip()` (ASCII range). -/
def isPySpace (c : Char) : Bool :=
  c = ' ' ∨ c = '\t' ∨ c = '\n' ∨ c = '\r' ∨ c = '\x0b' ∨ c = '\x0c'

/-- Python `not s.strip()`: the string is empty or all whitespace. -/
def isBlank (s : String) : Bool := s.data.all isPySpace

/-- Kernel-reducible `startsWith`. -/
def sStartsWith (s pre : String) : Bool := pre.data.isPrefixOf s.data

/-- Kernel-reducible `endsWith`. -/
def sEndsWith (s suf : String) : Bool := suf.data.isSuffixOf s.data

/-! ## SHA-256

`app/utils/patch_hash.py` and `app/utils/fix_fingerprint.py` hash with
`hashlib.sha256(raw.encode("utf-8")).hexdigest()[:16]`.  The algorithm is
implemented here bit-exactly: bytes and 32-bit words are `Nat`s reduced
mod `2^32`, messages are lists of bytes.
-/

/-- 2^32, the modulus of SHA-256 word arithmetic. -/
def M32 : Nat := 4294967296

/-- 32-bit right rotation. -/
def rotr (x n : Nat) : Nat :=
  ((x >>> n) ||| (x <<< (32 - n))) % M32

/-- 32-bit addition. -/
def add32 (a b : Nat) : Nat := (a + b) % M32

/-- 32-bit complement. -/
def compl32 (x : Nat) : Nat := M32 - 1 - x

/-- The SHA-256 round constants (FIPS 180-4 §4.2.2, in decimal). -/
def shaK : List Nat :=
  [1116352408, 1899447441, 3049323471, 3921009573, 961987163, 1508970993,
   2453635748, 2870763221, 3624381080, 310598401, 607225278, 1426881987,
   1925078388, 2162078206, 2614888103, 3248222580, 3835390401, 4022224774,
   264347078, 604807628, 770255983, 1249150122, 1555081692, 1996064986,
   2554220882, 2821834349, 2952996808, 3210313671, 3336571891, 3584528711,
   113926993, 338241895, 666307205, 773529912, 1294757372, 1396182291,
   1695183700, 1986661051, 2177026350, 2456956037, 2730485921, 2820302411,
   3259730800, 3345764771, 3516065817, 3600352804, 4094571909, 275423344,
   430227734, 506948616, 659060556, 883997877, 958139571, 1322822218,
   1537002063, 1747873779, 1955562222, 2024104815, 2227730452, 2361852424,
   2428436474, 2756734187, 3204031479, 3329325298]

/-- The SHA-256 initial hash value (FIPS 180-4 §5.3.3, in decimal). -/
def shaH0 : List Nat :=
  [1779033703, 3144134277, 1013904242, 2773480762,
   1359893119, 2600822924, 528734635, 1541459225]

/-- SHA-256 message padding: append `0x80`, zeros, and the 64-bit
big-endian bit length, to a multiple of 64 bytes. -/
def shaPad (msg : List Nat) : List Nat :=
  let len := msg.length
  let bitLen := len * 8
  let padZeros := (119 - len % 64) % 64
  msg ++ [0x80] ++ List.replicate padZeros 0 ++
    [(bitLen >>> 56) % 256, (bitLen >>> 48) % 256, (bitLen >>> 40) % 256, (bitLen >>> 32) % 256,
     (bitLen >>> 24) % 256, (bitLen >>> 16) % 256, (bitLen >>> 8) % 256, bitLen % 256]

/-- Group a byte list into big-endian 32-bit words. -/
def toWords : List Nat → List Nat
  | a :: b :: c :: d :: rest => (((a * 256 + b) * 256 + c) * 256 + d) :: toWords rest
  | _ => []

/-- Split a byte list into 64-byte blocks (fuel-driven for structural
recursion; the fuel is the list length, which always suffices). -/
def chunks64Aux : Nat → List Nat → List (List Nat)
  | _, [] => []
  | 0, _ => []
  | fuel + 1, a :: rest =>
    (a :: rest).take 64 :: chunks64Aux fuel ((a :: rest).drop 64)

/-- Split a byte list into 64-byte blocks. -/
def chunks64 (l : List Nat) : List (List Nat) := chunks64Aux l.length l

/-- SHA-256 message schedule; `acc` holds the words already computed, in
reverse order, and `n` counts the words still to produce. -/
def scheduleRev (acc : List Nat) : Nat → List Nat
  | 0 => acc
  | n + 1 =>
    let w15 := acc.getD 14 0
    let w2 := acc.getD 1 0
    let w16 := acc.getD 15 0
    let w7 := acc.getD 6 0
    let s0 := Nat.xor (Nat.xor (rotr w15 7) (rotr w15 18)) (w15 >>> 3)
    let s1 := Nat.xor (Nat.xor (rotr w2 17) (rotr w2 19)) (w2 >>> 10)
    scheduleRev (add32 (add32 w16 s0) (add32 w7 s1) :: acc) n

/-- One SHA-256 compression round on the eight-word state. -/
def shaRound (st : List Nat) (k w : Nat) : List Nat :=
  match st with
  | [a, b, c, d, e, f, g, h] =>
    let S1 := Nat.xor (Nat.xor (rotr e 6) (rotr e 11)) (rotr e 25)
    let ch := Nat.xor (Nat.land e f) (Nat.land (compl32 e) g)
    let t1 := add32 h (add32 S1 (add32 ch (add32 k w)))
    let S0 := Nat.xor (Nat.xor (rotr a 2) (rotr a 13)) (rotr a 22)
    let maj := Nat.xor (Nat.xor (Nat.land a b) (Nat.land a c)) (Nat.land b c)
    let t2 := add32 S0 maj
    [add32 t1 t2, a, b, c, add32 d t1, e, f, g]
  | _ => st

/-- Process one 64-byte block. -/
def processBlock (h : List Nat) (block : List Nat) : List Nat :=
  let w := (scheduleRev (toWords block).reverse 48).reverse
  let st := (List.zip shaK w).foldl (fun s kw => shaRound s kw.1 kw.2) h
  List.zipWith add32 h st

/-- Lower-case hex digit of a value below 16. -/
def hexDigit (n : Nat) : Char :=
  if n < 10 then Char.ofNat (48 + n) else Char.ofNat (87 + n)

/-- Eight hex characters of a 32-bit word, most significant first. -/
def wordHex (w : Nat) : List Char :=
  [hexDigit ((w >>> 28) % 16), hexDigit ((w >>> 24) % 16), hexDigit ((w >>> 20) % 16),
   hexDigit ((w >>> 16) % 16), hexDigit ((w >>> 12) % 16), hexDigit ((w >>> 8) % 16),
   hexDigit ((w >>> 4) % 16), hexDigit (w % 16)]

/-- Full SHA-256 hex digest of a byte message. -/
def sha256hex (msg : List Nat) : List Char :=
  ((chunks64 (shaPad msg)).foldl processBlock shaH0).flatMap wordHex

/-- UTF-8 encoding of one character. -/
def utf8Char (c : Char) : List Nat :=
  let n := c.toNat
  if n < 0x80 then [n]
  else if n < 0x800 then [0xC0 + n / 64, 0x80 + n % 64]
  else if n < 0x10000 then [0xE0 + n / 4096, 0x80 + (n / 64) % 64, 0x80 + n % 64]
  else [0xF0 + n / 262144, 0x80 + (n / 4096) % 64, 0x80 + (n / 64) % 64, 0x80 + n % 64]

/-- Python `s.encode("utf-8")` as a byte list. -/
def utf8Encode (s : String) : List Nat := s.data.flatMap utf8Char

/-- Python `hashlib.sha256(s.encode("utf-8")).hexdigest()[:16]`. -/
def sha256hex16 (s : String) : String := ⟨(sha256hex (utf8Encode s)).take 16⟩

/-! ## Data model: `BugReport`

`app/models/bug_report.py`.  Only the four fields the embedded core
reads are carried (`domain`, `confidence`, `tool`, `message`,
`test_name` are routing/debug payload never consulted by the verified
components).  `line_number` is an `int ≥ 1` by the model contract; it is
embedded as `Nat`.
-/

structure BugReport where
  bug_type : String
  sub_type : String
  file_path : String
  line_number : Nat
  deriving DecidableEq, Repr

/-! ## Bug-type priority and the priority sort

`app/parser/classification.py` lines 113–125 and
`app/agents/orchestrator.py` lines 106–108.
-/

/-- The `BUG_TYPE_PRIORITY` table as a lookup with the `.get(…, 99)`
default (`priority_of`). -/
def priority_of (bug_type : String) : Nat :=
  if bug_type = "SYNTAX" then 0
  else if bug_type = "IMPORT" then 1
  else if bug_type = "TYPE_ERROR" then 2
  else if bug_type = "INDENTATION" then 3
  else if bug_type = "LOGIC" then 4
  else if bug_type = "LINTING" then 5
  else 99

/-- Stable insertion of an element into a key-sorted list: the element
goes before the first strictly larger key, hence after any equal keys
already present — the placement Python's stable `sorted` gives. -/
def stableInsertByKey (key : α → Nat) (x : α) : List α → List α
  | [] => [x]
  | y :: ys => if key x ≤ key y then x :: y :: ys else y :: stableInsertByKey key x ys

/-- Stable sort by a `Nat` key.  Python's `sorted` is guaranteed stable,
and a stable sort by a key is unique, so this insertion sort computes
exactly `sorted(l, key=key)`. -/
def pyStableSortByKey (key : α → Nat) : List α → List α
  | [] => []
  | x :: xs => stableInsertByKey key x (pyStableSortByKey key xs)

/-- `_sort_bugs_by_priority`: `sorted(bugs, key=lambda b: priority_of(b.bug_type))`. -/
def sort_bugs_by_priority (bugs : List BugReport) : List BugReport :=
  pyStableSortByKey (fun b => priority_of b.bug_type) bugs

/-! ## Fingerprint engine

`app/utils/fix_fingerprint.py` and `app/utils/patch_hash.py`.
-/

/-- The raw identity string `f"{file_path}:{line_number}:{sub_type}"`
hashed by `generate_bug_signature`. -/
def bugIdentityString (b : BugReport) : String :=
  b.file_path ++ ":" ++ toString b.line_number ++ ":" ++ b.sub_type

/-- `generate_bug_signature`: the truncated SHA-256 of the identity string. -/
def generate_bug_signature (b : BugReport) : String :=
  sha256hex16 (bugIdentityString b)

/-- `compute_patch_hash` (`app/utils/patch_hash.py`): empty for an
empty/blank diff, else the truncated SHA-256 of the diff. -/
def compute_patch_hash (diff : String) : String :=
  if diff = "" ∨ isBlank diff then "" else sha256hex16 diff

/-- `generate_fix_fingerprint`: combines the bug signature with the
patch hash; falls back to the bare signature when the diff is blank. -/
def generate_fix_fingerprint (b : BugReport) (patch_diff : String) : String :=
  let bug_sig := generate_bug_signature b
  let patch_hash := compute_patch_hash patch_diff
  if patch_hash = "" then bug_sig
  else sha256hex16 (bug_sig ++ ":" ++ patch_hash)

/-! ## Iteration-outcome classification

`_classify_iteration_outcome`, `app/agents/orchestrator.py` lines 122–161.
-/

/-- `min((priority_of(b.bug_type) for b in bugs), default=999)`: every
table priority is ≤ 99, so the fold with initial value 999 computes the
same minimum, and 999 for an empty list. -/
def minPriorityDefault (bugs : List BugReport) : Nat :=
  bugs.foldr (fun b m => min (priority_of b.bug_type) m) 999

/-- Number of bugs sitting at a given priority tier
(`sum(1 for b in bugs if priority_of(b.bug_type) == p)`). -/
def countAtPriority (bugs : List BugReport) (p : Nat) : Nat :=
  bugs.countP (fun b => priority_of b.bug_type = p)

/-- `_classify_iteration_outcome`: priority-aware drift classification of
one iteration against the previous one. -/
def classify_iteration_outcome (prev_sigs curr_sigs : List String)
    (prev_bugs curr_bugs : List BugReport) : String :=
  if prev_sigs = curr_sigs then "unchanged"
  else
    let prev_best := minPriorityDefault prev_bugs
    let curr_best := minPriorityDefault curr_bugs
    if curr_best > prev_best then "improved"
    else if curr_best < prev_best then "regressed"
    else
      let prev_root_count := countAtPriority prev_bugs prev_best
      let curr_root_count := countAtPriority curr_bugs curr_best
      if curr_root_count < prev_root_count then "improved"
      else if curr_root_count > prev_root_count then "regressed"
      else if curr_sigs.length ≤ prev_sigs.length then "improved"
      else "regressed"

/-! ## Bounded fix-history store

`_FixHistoryStore`, `app/agents/orchestrator.py` lines 189–238.  The
Python object keeps a dict `_store` plus a deque `_order` recording
signature insertion order; since keys are only ever appended on first
insertion and removed from the front on eviction, dict order and
`_order` coincide, and both are modelled by one insertion-ordered
association list.
-/

/-- `_FP_CAP_PER_BUG`. -/
def FP_CAP_PER_BUG : Nat := 5

/-- `_FP_CAP_GLOBAL`. -/
def FP_CAP_GLOBAL : Nat := 200

/-- First-match association lookup (Python dict access on distinct keys). -/
def assocFind (sig : String) : List (String × List String) → Option (List String)
  | [] => none
  | (s, l) :: rest => if s = sig then some l else assocFind sig rest

/-- Replace the value at a key, first occurrence. -/
def assocUpdate (sig : String) (v : List String) :
    List (String × List String) → List (String × List String)
  | [] => []
  | (s, l) :: rest =>
    if s = sig then (s, v) :: rest else (s, l) :: assocUpdate sig v rest

/-- `deque(maxlen=cap).append(x)`: append on the right, discarding from
the left down to `cap` elements. -/
def dequeAppend (cap : Nat) (l : List String) (x : String) : List String :=
  let l' := l ++ [x]
  l'.drop (l'.length - cap)

/-- The bounded fix-fingerprint store. -/
structure FixHistoryStore where
  store : List (String × List String)
  per_bug_cap : Nat
  global_cap : Nat
  deriving DecidableEq, Repr

/-- `_FixHistoryStore()` with the default caps. -/
def FixHistoryStore.empty : FixHistoryStore :=
  ⟨[], FP_CAP_PER_BUG, FP_CAP_GLOBAL⟩

/-- `get_fingerprints`: the fingerprints stored for a signature (the
source returns them as a `set`; the list here carries the same
membership information plus their order). -/
def FixHistoryStore.get_fingerprints (st : FixHistoryStore) (bug_sig : String) : List String :=
  (assocFind bug_sig st.store).getD []

/-- `_FixHistoryStore.add`: on a new signature, first evict the oldest
signature when the global cap is full, then append the new signature;
in both cases append the fingerprint to the signature's bounded deque. -/
def FixHistoryStore.add (st : FixHistoryStore) (bug_sig patch_fp : String) : FixHistoryStore :=
  match assocFind bug_sig st.store with
  | some l =>
    { st with store := assocUpdate bug_sig (dequeAppend st.per_bug_cap l patch_fp) st.store }
  | none =>
    let afterEvict := if st.store.length ≥ st.global_cap then st.store.drop 1 else st.store
    { st with store := afterEvict ++ [(bug_sig, dequeAppend st.per_bug_cap [] patch_fp)] }

/-- Run a whole sequence of `add` calls from the empty store. -/
def FixHistoryStore.ofOps (ops : List (String × String)) : FixHistoryStore :=
  ops.foldl (fun st op => st.add op.1 op.2) FixHistoryStore.empty

/-! ## Wall-clock guardrail and the healing-loop skeleton

`Orchestrator.run`, `app/agents/orchestrator.py`: thresholds lines
64–67, hint lines 97–103, the loop's guardrail check lines 377–386, the
batch truncation lines 531–536, and the final `pending → exhausted`
normalisation lines 827–831.  Elapsed wall-clock seconds are `ℚ`.

The guardrail check sits at the very top of each iteration, before any
other work; everything after it (build, detection, fixing, commit
gating, CI polling, snapshot recording) is abstracted as an arbitrary
state transformer `body` supplied by the environment, which returns the
updated control state and whether the loop keeps running.  The
guardrail theorems therefore hold for *every* possible behaviour of the
rest of the iteration.
-/

/-- `_GUARDRAIL_REDUCED` (seconds). -/
def GUARDRAIL_REDUCED : ℚ := 180

/-- `_GUARDRAIL_CRITICAL` (seconds). -/
def GUARDRAIL_CRITICAL : ℚ := 240

/-- `_GUARDRAIL_ABORT` (seconds). -/
def GUARDRAIL_ABORT : ℚ := 290

/-- `RUN_RETRY_LIMIT` (`app/core/config.py`, default). -/
def RUN_RETRY_LIMIT : Nat := 5

/-- `_get_performance_hint`. -/
def get_performance_hint (elapsed : ℚ) : String :=
  if elapsed ≥ GUARDRAIL_CRITICAL then "critical"
  else if elapsed ≥ GUARDRAIL_REDUCED then "reduced"
  else "normal"

/-- The summary written when the abort guardrail fires. -/
def guardrailSummary : String := "Stopped: 5-minute performance guardrail reached."

/-- The part of `AgentState` the loop-control skeleton manipulates. -/
structure RunControlState where
  iteration : Nat
  performance_hint : String
  status : String
  execution_summary : String
  deriving DecidableEq, Repr

/-- The run environment: elapsed time observed at the top of each
iteration, and the abstracted iteration body (returns the new state and
`true` to continue looping, `false` to break). -/
structure LoopEnv where
  elapsed : Nat → ℚ
  body : Nat → RunControlState → RunControlState × Bool

/-- The healing-loop skeleton: at most `fuel` more iterations starting
from iteration number `i`.  Each iteration records its number and
performance hint, then aborts with `exhausted` when the elapsed time has
reached `_GUARDRAIL_ABORT`, and otherwise runs the iteration body. -/
def healLoopAux (env : LoopEnv) : Nat → Nat → RunControlState → RunControlState
  | 0, _, st => st
  | fuel + 1, i, st =>
    let elapsed := env.elapsed i
    let st1 := { st with iteration := i, performance_hint := get_performance_hint elapsed }
    if elapsed ≥ GUARDRAIL_ABORT then
      { st1 with status := "exhausted", execution_summary := guardrailSummary }
    else
      match env.body i st1 with
      | (st2, true) => healLoopAux env fuel (i + 1) st2
      | (st2, false) => st2

/-- After the loop: a still-`pending` status becomes `exhausted`
(iteration budget consumed without success). -/
def finalizeRun (st : RunControlState) : RunControlState :=
  if st.status = "pending" then
    { st with status := "exhausted",
              execution_summary :=
                "Reached RUN_RETRY_LIMIT (" ++ toString RUN_RETRY_LIMIT ++ ") without full success." }
  else st

/-- The full loop: iterations `1 … RUN_RETRY_LIMIT`, then finalisation. -/
def healLoop (env : LoopEnv) (st0 : RunControlState) : RunControlState :=
  finalizeRun (healLoopAux env RUN_RETRY_LIMIT 1 st0)

/-- The performance-aware batch truncation (orchestrator lines 531–536):
`remaining` is `max(0, _GUARDRAIL_ABORT - elapsed)`. -/
def apply_batch_limit (performance_hint : String) (remaining : ℚ)
    (bugs : List BugReport) : List BugReport :=
  if performance_hint = "critical" ∨ remaining < 60 then bugs.take 1
  else if performance_hint = "reduced" then bugs.take 3
  else bugs

/-! ## Commit/push gate

`Orchestrator.run` lines 670–711: effectiveness scoring
(`_score_effectiveness`, lines 164–176), the root-failure predicates
(lines 179–186) and the `should_commit` decision (lines 700–704).

One iteration's fix phase produces a list of `FixResult`s; the gate
consults each result's `success` flag, its bug, and its bug signature.
The source tracks which results were actually applied by the git layer
only as a counter (`applied_in_iteration`); the model carries an
explicit per-fix `applied` flag (set exactly when `git_agent.apply_fix`
returned `True`, which implies `success`), so `applied_in_iteration` is
the count of `applied` fixes and spec-level statements about "applied"
fixes are expressible.
-/

/-- The slice of a `FixResult` the commit gate consults, plus the
`applied` bookkeeping flag. -/
structure IterFix where
  bug : BugReport
  success : Bool
  applied : Bool
  bug_signature : String
  deriving DecidableEq, Repr

/-- Membership of `_ROOT_BUG_TYPES = {"SYNTAX", "IMPORT"}`. -/
def is_root_bug_type (t : String) : Bool := t = "SYNTAX" ∨ t = "IMPORT"

/-- `_has_root_failures`. -/
def has_root_failures (bugs : List BugReport) : Bool :=
  bugs.any (fun b => is_root_bug_type b.bug_type)

/-- `_fix_targets_root`. -/
def fix_targets_root (f : IterFix) : Bool := is_root_bug_type f.bug.bug_type

/-- `_score_effectiveness`: 1.0 when the bug's signature disappeared,
0.0 when it persisted, 0.5 otherwise; the signature field falls back to
recomputation when empty (Python `or`). -/
def score_effectiveness (f : IterFix) (pre_sigs post_sigs : List String) : ℚ :=
  let sig := if f.bug_signature = "" then generate_bug_signature f.bug else f.bug_signature
  if sig ∉ post_sigs ∧ sig ∈ pre_sigs then 1
  else if sig ∈ post_sigs ∧ sig ∈ pre_sigs then 0
  else mkRat 1 2

/-- `applied_in_iteration`: how many fixes the git layer applied. -/
def applied_in_iteration (fixes : List IterFix) : Nat := fixes.countP (·.applied)

/-- `effective_in_iteration`: the scoring loop (lines 671–676) counts
the *successful* fixes whose effectiveness score is positive. -/
def effective_in_iteration (fixes : List IterFix) (pre_sigs post_sigs : List String) : Nat :=
  (fixes.filter (·.success)).countP
    (fun f => decide (score_effectiveness f pre_sigs post_sigs > 0))

/-- `should_commit` (lines 696–704): the commit/push gate.  All three
conjuncts must hold: something was applied, something successful scored
positive, and either no root failure remains or some *successful* fix
targeted a root bug type. -/
def should_commit (fixes : List IterFix) (pre_sigs post_sigs : List String)
    (post_fix_bugs : List BugReport) : Bool :=
  let applied := applied_in_iteration fixes
  let effective := effective_in_iteration fixes pre_sigs post_sigs
  let root_failures_remain := has_root_failures post_fix_bugs
  let has_root_fixes := fixes.any (fun f => f.success && fix_targets_root f)
  decide (applied > 0) && decide (effective > 0) && (!root_failures_remain || has_root_fixes)

/-- The commit/push-gate conditions exactly as the specification words
them — conditions two and three range over *applied* patches
("at least one applied patch scored `effectiveness_score > 0`", "at
least one applied fix targeted a root bug type").  Stated for
comparison against `should_commit`. -/
def spec_commit_conditions (fixes : List IterFix) (pre_sigs post_sigs : List String)
    (post_fix_bugs : List BugReport) : Bool :=
  decide (applied_in_iteration fixes > 0)
    && fixes.any (fun f => f.applied && decide (score_effectiveness f pre_sigs post_sigs > 0))
    && (!has_root_failures post_fix_bugs || fixes.any (fun f => f.applied && fix_targets_root f))

/-! ## Escalation-reason constants

`app/utils/escalation_reasons.py`.
-/

/-- Escalation reason constant. -/
def DIFF_TOO_LARGE : String := "DIFF_TOO_LARGE"

/-- Escalation reason constant. -/
def LOW_CONFIDENCE : String := "LOW_CONFIDENCE"

/-- Escalation reason constant. -/
def LOCALITY_VIOLATION : String := "LOCALITY_VIOLATION"

/-- Escalation reason constant. -/
def REPEATED_FIX : String := "REPEATED_FIX"

/-! ## Patch locality validation

`validate_patch_locality`, `app/utils/patch_locality.py` lines 22–106:
a line-oriented scan of a unified diff, tracking old/new line counters
from hunk headers and collecting the absolute numbers of changed lines.
-/

/-- A character on which Python `str.splitlines()` breaks: `\\n`, `\\r`,
`\\v` (0x0b), `\\f` (0x0c), the separators 0x1c-0x1e, NEL (0x85), and the
Unicode line and paragraph separators U+2028 and U+2029. -/
def isLineBreak (c : Char) : Bool :=
  decide (c = '\n' ∨ c = '\r' ∨ c = '\x0b' ∨ c = '\x0c' ∨ c = '\x1c' ∨ c = '\x1d'
    ∨ c = '\x1e' ∨ c = '\x85' ∨ c = '\u2028' ∨ c = '\u2029')

/-- Python `str.splitlines()` on a character list: every `isLineBreak`
character ends a line, `\r\n` counting as one break; a terminator at
the very end produces no trailing empty line. -/
def splitlinesAux (cur : List Char) : List Char → List (List Char)
  | [] => if cur = [] then [] else [cur.reverse]
  | '\r' :: '\n' :: rest => cur.reverse :: splitlinesAux [] rest
  | c :: rest =>
    if isLineBreak c then cur.reverse :: splitlinesAux [] rest
    else splitlinesAux (c :: cur) rest

/-- Python `s.splitlines()`. -/
def splitlinesPy (s : String) : List String :=
  (splitlinesAux [] s.data).map String.mk

/-- Longest digit prefix of a character list, and the rest. -/
def spanDigits (l : List Char) : List Char × List Char :=
  (l.takeWhile (fun c => decide ('0' ≤ c ∧ c ≤ '9')),
   l.dropWhile (fun c => decide ('0' ≤ c ∧ c ≤ '9')))

/-- Decimal value of a digit list. -/
def digitsToNat (l : List Char) : Nat :=
  l.foldl (fun n c => n * 10 + (c.toNat - 48)) 0

/-- Past the line numbers: the optional `,count` group followed by the
mandatory delimiter character.  Returns the rest after the delimiter. -/
def skipCountThen (delim : Char) (l : List Char) : Option (List Char) :=
  match l with
  | c :: t =>
    if c = ',' then
      let (d, t') := spanDigits t
      if d = [] then none
      else match t' with
        | c2 :: t'' => if c2 = delim then some t'' else none
        | [] => none
    else if c = delim then some t else none
  | [] => none

/-- The hunk-header regular expression
`^@@ -(\d+)(?:,\d+)? \+(\d+)(?:,\d+)? @@` applied with `re.match`: an
anchored prefix match (anything may follow the closing `@@`), returning
the two start line numbers.  The regex is deterministic here because
after each greedy `\d+` the next required character is never a digit. -/
def parseHunkHeader (l : List Char) : Option (Nat × Nat) :=
  match l with
  | a :: b :: c :: d :: rest =>
    if a = '@' ∧ b = '@' ∧ c = ' ' ∧ d = '-' then
      let (d1, r1) := spanDigits rest
      if d1 = [] then none
      else
        match skipCountThen ' ' r1 with
        | none => none
        | some r2 =>
          match r2 with
          | e :: r3 =>
            if e = '+' then
              let (d2, r4) := spanDigits r3
              if d2 = [] then none
              else
                match skipCountThen ' ' r4 with
                | none => none
                | some r5 =>
                  match r5 with
                  | f :: g :: _ =>
                    if f = '@' ∧ g = '@' then some (digitsToNat d1, digitsToNat d2)
                    else none
                  | _ => none
            else none
          | [] => none
    else none
  | _ => none

/-- The validator's scan loop (lines 68–86): walk the diff lines,
resetting the counters at each hunk header, skipping the `---`/`+++`
file headers, recording the current old line for a deletion and the
current new line for an insertion, and advancing both counters on any
other line. -/
def extractGo (old new : Nat) : List (List Char) → List Nat
  | [] => []
  | l :: rest =>
    match parseHunkHeader l, l with
    | some (o, n), _ => extractGo o n rest
    | none, [] => extractGo (old + 1) (new + 1) rest
    | none, c :: cs =>
      if ['-', '-', '-'].isPrefixOf (c :: cs) ∨ ['+', '+', '+'].isPrefixOf (c :: cs) then
        extractGo old new rest
      else if c = '-' then old :: extractGo (old + 1) new rest
      else if c = '+' then new :: extractGo old (new + 1) rest
      else extractGo (old + 1) (new + 1) rest

/-- All changed line numbers extracted from a unified diff string. -/
def extractChangedLines (diff : String) : List Nat :=
  extractGo 0 0 (splitlinesAux [] diff.data)

/-- `validate_patch_locality`: accepts when every changed line lies in
`[max(1, failing_line − window), failing_line + window]`.  The model
takes the diff as given: the embedded caller (`FixAgent.fix`) always
passes the diff it computed from the very same content pair, so the
source's internal recompute-when-empty fallback is never observably
different.  The failure reason is a fixed marker (the source
interpolates the offending line numbers into its message). -/
def validate_patch_locality (failing_line : Nat) (diff : String) (window : Nat) :
    Bool × String :=
  if isBlank diff then (true, "No changes detected")
  else
    let changed_lines := extractChangedLines diff
    if changed_lines = [] then (true, "No line changes detected")
    else
      let min_allowed := max 1 (failing_line - window)
      let max_allowed := failing_line + window
      let out_of_bounds := changed_lines.filter (fun ln => ln < min_allowed ∨ ln > max_allowed)
      if out_of_bounds ≠ [] then
        (false, "Patch modifies lines outside locality window")
      else
        (true, "All changes within locality window")

/-! ### Structured unified diffs

To state what the locality scan *means*, well-formed unified diffs are
built from structured hunks and rendered to the string format the
validator parses.  A hunk's changed lines have canonical absolute
numbers — deletions counted in the old file from `oldStart`, insertions
in the new file from `newStart` — and the correctness theorem shows the
string-level scan recovers exactly these.
-/

/-- One body line of a unified-diff hunk. -/
inductive DiffLine where
  | ctx (s : String)
  | del (s : String)
  | ins (s : String)
  deriving DecidableEq, Repr

/-- A unified-diff hunk: old/new start lines and the body lines. -/
structure Hunk where
  oldStart : Nat
  newStart : Nat
  lines : List DiffLine
  deriving DecidableEq, Repr

/-- Lines of the old file covered by a hunk body. -/
def oldCount (lines : List DiffLine) : Nat :=
  lines.countP (fun l => match l with | .del _ => true | .ctx _ => true | .ins _ => false)

/-- Lines of the new file covered by a hunk body. -/
def newCount (lines : List DiffLine) : Nat :=
  lines.countP (fun l => match l with | .ins _ => true | .ctx _ => true | .del _ => false)

/-- Render one hunk body line with its marker character. -/
def renderDiffLine : DiffLine → String
  | .ctx s => " " ++ s
  | .del s => "-" ++ s
  | .ins s => "+" ++ s

/-- Render a hunk header, `@@ -a,c +b,d @@`. -/
def renderHunkHeader (h : Hunk) : String :=
  "@@ -" ++ toString h.oldStart ++ "," ++ toString (oldCount h.lines) ++
    " +" ++ toString h.newStart ++ "," ++ toString (newCount h.lines) ++ " @@"

/-- Render a hunk as its header line followed by its body lines. -/
def renderHunk (h : Hunk) : List String :=
  renderHunkHeader h :: h.lines.map renderDiffLine

/-- Join lines with `"\n"` (`"\n".join(...)`, the format
`difflib.unified_diff` output is assembled with in this code base). -/
def joinNL (lines : List String) : String :=
  String.mk (List.intercalate ['\n'] (lines.map String.data))

/-- Render a whole unified diff: the `---`/`+++` file headers followed
by every hunk. -/
def renderDiff (pathA pathB : String) (hunks : List Hunk) : String :=
  joinNL (("--- a/" ++ pathA) :: ("+++ b/" ++ pathB) :: hunks.flatMap renderHunk)

/-- Canonical absolute line numbers changed by a hunk body, counting
from the given old/new start lines. -/
def hunkChangedFrom (oldL newL : Nat) : List DiffLine → List Nat
  | [] => []
  | .del _ :: rest => oldL :: hunkChangedFrom (oldL + 1) newL rest
  | .ins _ :: rest => newL :: hunkChangedFrom oldL (newL + 1) rest
  | .ctx _ :: rest => hunkChangedFrom (oldL + 1) (newL + 1) rest

/-- Canonical changed line numbers of a whole structured diff. -/
def diffChangedLines (hunks : List Hunk) : List Nat :=
  hunks.flatMap (fun h => hunkChangedFrom h.oldStart h.newStart h.lines)

/-- No `str.splitlines()` line-break characters in a string (so that
rendering and `splitlines` round-trip). -/
def noNewline (s : String) : Bool :=
  s.data.all (fun c => !isLineBreak c)

/-- A hunk body line that renders and re-parses unambiguously: no line
breaks, a deletion must not render as a `---` file header, an insertion
must not render as a `+++` file header. -/
def diffLineOK : DiffLine → Bool
  | .ctx s => noNewline s
  | .del s => noNewline s && !sStartsWith s "--"
  | .ins s => noNewline s && !sStartsWith s "++"

/-- A well-formed hunk: positive start lines (as in every real unified
diff of non-empty files) and unambiguous body lines. -/
def hunkOK (h : Hunk) : Bool :=
  decide (1 ≤ h.oldStart) && decide (1 ≤ h.newStart) && h.lines.all diffLineOK

/-! ## Fix-agent validation pipeline (post-LLM)

`FixAgent.fix`, `app/agents/fix_agent.py` lines 269–364: once the LLM
has produced `patched_content`, the agent computes the unified diff and
runs the diff-size check (step 10), the locality check (step 11), the
fingerprint/repeat check (step 12) and the confidence gate (step 13).
The model takes the diff as an input (in the source it is
`_compute_diff(file_content, patched, path)`, a deterministic pure
function of the two contents, so "the same patch" always yields the
same diff bytes).  Confidences are `ℚ`.
-/

/-- `_check_diff_size` (lines 444–471): at most `threshold` added or
removed lines, not counting the `---`/`+++` headers. -/
def check_diff_size (diff : String) (threshold : Nat) : Bool :=
  if diff = "" then true
  else
    let changed := (splitlinesPy diff).countP (fun l =>
      !(sStartsWith l "---") && !(sStartsWith l "+++")
        && (sStartsWith l "+" || sStartsWith l "-"))
    changed ≤ threshold

/-- The slice of a `FixResult` produced by the validation pipeline that
the orchestrator's acceptance logic consults. -/
structure FixOutcome where
  success : Bool
  needs_escalation : Bool
  escalation_reason : String
  patch_fingerprint : String
  deriving DecidableEq, Repr

/-- Steps 10–13 of `FixAgent.fix` plus the seen-fingerprint set (the
agent's `_seen_fingerprints`, modelled as a list queried by
membership): diff-size gate, locality gate with the small-file widened
window, repeat detection, then the confidence gate. -/
def fixValidate (bug : BugReport) (file_content diff : String)
    (confidence confidence_threshold : ℚ) (max_diff_lines locality_window : Nat)
    (seen : List String) : FixOutcome × List String :=
  if !check_diff_size diff max_diff_lines then
    (⟨false, true, DIFF_TOO_LARGE, ""⟩, seen)
  else
    let effective_window :=
      if (splitlinesPy file_content).length < 100 then 100 else locality_window
    if !(validate_patch_locality bug.line_number diff effective_window).1 then
      (⟨false, true, LOCALITY_VIOLATION, ""⟩, seen)
    else
      let fingerprint := generate_fix_fingerprint bug diff
      let is_repeat := decide (fingerprint ∈ seen)
      let seen' := if fingerprint ≠ "" then seen ++ [fingerprint] else seen
      if is_repeat then
        (⟨false, true, REPEATED_FIX, fingerprint⟩, seen')
      else
        let below := decide (confidence < confidence_threshold)
        (⟨!below, below, if below then LOW_CONFIDENCE else "", fingerprint⟩, seen')

/-- The orchestrator's own cross-iteration repeat check
(`Orchestrator.run` lines 616–626): a successful fix whose fingerprint
is already in the bounded history for its bug signature is demoted to a
rejected `REPEATED_FIX` attempt. -/
def orchestrator_repeat_check (history_fingerprints : List String) (r : FixOutcome) :
    FixOutcome :=
  if r.patch_fingerprint ≠ "" ∧ r.patch_fingerprint ∈ history_fingerprints then
    { r with success := false, escalation_reason := REPEATED_FIX }
  else r

/-! ## Git agent: branch validation and push safety

`GitAgent`, `app/agents/git_agent.py`: `validate_branch_name`
(lines 94–99) and `push` (lines 173–234).
-/

/-- A character of the branch-name class `[A-Z0-9_]`. -/
def isBranchChar (c : Char) : Bool :=
  decide (('A' ≤ c ∧ c ≤ 'Z') ∨ ('0' ≤ c ∧ c ≤ '9') ∨ c = '_')

/-- `validate_branch_name`: `bool(re.match(r"^[A-Z0-9_]+_AI_Fix$", name))`.
The name (less one optional trailing newline, which Python's `$`
tolerates) must be a non-empty `[A-Z0-9_]` word followed by `_AI_Fix`;
since `_AI_Fix` contains lower-case letters outside the class, the
suffix position is forced and the match is deterministic. -/
def validate_branch_name (name : String) : Bool :=
  let l := if name.data.getLast? = some '\n' then name.data.dropLast else name.data
  decide (l.length ≥ 8) && decide (l.drop (l.length - 7) = "_AI_Fix".data)
    && (l.take (l.length - 7)).all isBranchChar

/-- Outcomes of the subprocess calls `push` may issue: whether the n-th
`git push` succeeds, and whether `git fetch` / `git rebase` succeed. -/
structure PushEnv where
  push_ok : Nat → Bool
  fetch_ok : Bool
  rebase_ok : Bool

/-- `GitAgent.push` for an explicitly supplied branch (the callers
modelled here always pass one; the source's fallback to a generated
name only runs for an empty argument).  Returns the push status
together with the trace of subprocess git invocations actually issued,
in order — an empty trace means zero network calls.  Validation gates
run first: protected names are refused (`rejected_main`), then the
naming convention is enforced (`invalid_branch_name`); only then does
the two-attempt push / fetch-rebase-retry loop contact the remote. -/
def GitAgent.push (env : PushEnv) (branch : String) : String × List String :=
  if pyLower branch = "main" ∨ pyLower branch = "master" then
    ("rejected_main", [])
  else if !validate_branch_name branch then
    ("invalid_branch_name", [])
  else
    if env.push_ok 1 then ("success", ["push"])
    else if !env.fetch_ok then ("conflict_unresolved", ["push", "fetch"])
    else if !env.rebase_ok then ("conflict_unresolved", ["push", "fetch", "rebase"])
    else if env.push_ok 2 then ("success", ["push", "fetch", "rebase", "push"])
    else ("conflict_unresolved", ["push", "fetch", "rebase", "push"])

/-! ## Git agent: apply-fix path guard

`GitAgent.apply_fix`, `app/agents/git_agent.py` lines 101–171.  The
guard chain before any file is written: the fix must be successful with
non-empty patched content, the commit budget must not be exhausted, and
the workspace-relative target path, joined and normalised, must pass
`abs_path.startswith(os.path.abspath(workspace_path))`.

`os.path.normpath` and `os.path.join` are modelled for POSIX paths;
`os.path.abspath` coincides with `normpath` on the absolute workspace
paths this agent receives (`clone_repository` returns an absolute
temporary directory).
-/

/-- Split a character list on a separator character (Python
`str.split(sep)`; an empty input gives one empty component). -/
def splitChar (sep : Char) : List Char → List (List Char)
  | [] => [[]]
  | c :: rest =>
    match splitChar sep rest with
    | [] => if c = sep then [[], []] else [[c]]
    | h :: t => if c = sep then [] :: h :: t else (c :: h) :: t

/-- `posixpath.normpath`: collapse separators, drop `.` components,
resolve `..` against the stack (kept literally when relative and
leading; discarded at the root of an absolute path), preserving the
special two-leading-slash form. -/
def normpathPosix (path : String) : String :=
  if path = "" then "."
  else
    let isAbs := sStartsWith path "/"
    let initialSlashes : Nat :=
      if path.data.take 2 = ['/', '/'] ∧ path.data.take 3 ≠ ['/', '/', '/'] then 2
      else if isAbs then 1 else 0
    let comps := splitChar '/' path.data
    let newComps := comps.foldl (fun acc comp =>
      if comp = [] ∨ comp = ['.'] then acc
      else if comp ≠ ['.', '.'] then acc ++ [comp]
      else if initialSlashes = 0 ∧ acc = [] then acc ++ [comp]
      else if acc.getLast? = some ['.', '.'] then acc ++ [comp]
      else if acc ≠ [] then acc.dropLast
      else acc) []
    let joined := List.replicate initialSlashes '/' ++ List.intercalate ['/'] newComps
    if joined = [] then "." else String.mk joined

/-- `posixpath.join` for two components. -/
def pyJoin (a b : String) : String :=
  if sStartsWith b "/" then b
  else if a = "" ∨ sEndsWith a "/" then a ++ b
  else a ++ "/" ++ b

/-- `os.path.abspath` restricted to the absolute paths the agent
actually receives, where it reduces to `normpath`. -/
def abspathAbsolute (w : String) : String := normpathPosix w

/-- `MAX_COMMITS_PER_RUN` (`app/core/config.py`, default). -/
def MAX_COMMITS_PER_RUN : Nat := 20

/-- The guard chain of `apply_fix` (lines 105–118): `true` exactly when
the function goes on to write the patched file into the workspace (and
attempt a commit); `false` is returned to the caller with nothing
written. -/
def apply_fix_write_allowed (success : Bool) (patched_content : String)
    (commit_count : Nat) (workspace_path file_path : String) : Bool :=
  if !success || patched_content = "" then false
  else if commit_count ≥ MAX_COMMITS_PER_RUN then false
  else
    let abs_path := normpathPosix (pyJoin workspace_path file_path)
    sStartsWith abs_path (abspathAbsolute workspace_path)

/-- What the written path being "under the workspace" actually means:
the resolved path is the workspace itself or lies strictly below it
(one more separator).  This is the property the guard's log message
("Security violation: attempt to write outside workspace") promises. -/
def resolvesUnderWorkspace (workspace_path resolved : String) : Bool :=
  resolved = abspathAbsolute workspace_path
    || sStartsWith resolved (abspathAbsolute workspace_path ++ "/")

/-! ## Sorted signature lists and ordering predicates -/

/-- Lexicographic comparison of character lists by code point (Python's
string `<=`, restricted to the code-point-per-char strings used here). -/
def charListLe : List Char → List Char → Bool
  | [], _ => true
  | _ :: _, [] => false
  | a :: as, b :: bs =>
    if a.toNat < b.toNat then true
    else if b.toNat < a.toNat then false
    else charListLe as bs

/-- Sorted insertion of a string (all-equal strings are
indistinguishable, so plain insertion realises Python's stable sort). -/
def insertStrSorted (x : String) : List String → List String
  | [] => [x]
  | y :: ys => if charListLe x.data y.data then x :: y :: ys else y :: insertStrSorted x ys

/-- Python `sorted` on a list of strings. -/
def sortStringsPy : List String → List String
  | [] => []
  | x :: xs => insertStrSorted x (sortStringsPy xs)

/-- `_compute_failure_signatures_list`
(`sorted(generate_bug_signature(b) for b in bugs)`). -/
def compute_failure_signatures_list (bugs : List BugReport) : List String :=
  sortStringsPy (bugs.map generate_bug_signature)

/-- The processing order the specification promises for the per-bug fix
cycle: bug-type priority first, ties broken by file path, then by line
number. -/
def tieBreakLe (a b : BugReport) : Bool :=
  if priority_of a.bug_type < priority_of b.bug_type then true
  else if priority_of b.bug_type < priority_of a.bug_type then false
  else if charListLe a.file_path.data b.file_path.data
          ∧ a.file_path ≠ b.file_path then true
  else if a.file_path = b.file_path then decide (a.line_number ≤ b.line_number)
  else false

/-- Adjacent-pairs check that a list is ordered under `le`. -/
def pairwiseChainB (le : α → α → Bool) : List α → Bool
  | [] => true
  | [_] => true
  | a :: b :: rest => le a b && pairwiseChainB le (b :: rest)

/-! ## Concrete scenario data

The bug instances named in the specification's testable properties, and
the diffs for the locality boundary scenario.
-/

/-- The `SYNTAX@main.py:1` bug of the root-fix-gate scenario. -/
def syntaxBugMain1 : BugReport := ⟨"SYNTAX", "invalid_syntax", "main.py", 1⟩

/-- The `LINTING@utils.py:20` bug of the root-fix-gate scenario. -/
def lintBugUtils20 : BugReport := ⟨"LINTING", "unused_import", "utils.py", 20⟩

/-- A `SYNTAX` bug at `main.py:25` (commit-gate counterexample). -/
def syntaxBugMain25 : BugReport := ⟨"SYNTAX", "invalid_syntax", "main.py", 25⟩

/-- The same defect drifted to `main.py:24` after an edit above it. -/
def syntaxBugMain24 : BugReport := ⟨"SYNTAX", "invalid_syntax", "main.py", 24⟩

/-- A hunk whose changed lines (old 11, new 11) all lie inside the
`±5` window of failing line 10. -/
def hunkWithin : Hunk := ⟨10, 10, [.ctx "a", .del "bad", .ins "good", .ctx "b"]⟩

/-- A hunk that changes exactly line `failing_line + window + 1 = 16`. -/
def hunkBeyond : Hunk := ⟨16, 16, [.del "bad", .ins "good"]⟩

/-- A 100-line file (so the fix agent keeps the configured locality
window instead of widening it for small files). -/
def bigFile : String := joinNL (List.replicate 100 "x")

/-- The bug of the locality-boundary scenario: failing line 10, so with
window 5 the allowed band is lines 5–15. -/
def localityBug : BugReport := ⟨"LOGIC", "assertion_error", "calc.py", 10⟩

/-- A small one-line unified diff, proposed twice in the repeat-fix
scenario. -/
def repeatDiff : String := "--- a/f\n+++ b/f\n@@ -1 +1 @@\n-a\n+b"

/-! ## Decimal representation helper

`toString` on `Nat` is `Nat.repr`; the fuel-free digit-list recursion
below mirrors it and supports the injectivity proof for the bug
identity string.
-/

/-- Most-significant-first digit characters of a natural number. -/
def natChars (n : Nat) : List Char :=
  if n < 10 then [Nat.digitChar n]
  else natChars (n / 10) ++ [Nat.digitChar (n % 10)]
  decreasing_by exact Nat.div_lt_self (by omega) (by norm_num)

/-- Substring containment on character lists. -/
def listContainsSub (sub : List Char) : List Char → Bool
  | [] => sub.isPrefixOf []
  | c :: rest => sub.isPrefixOf (c :: rest) || listContainsSub sub rest

/-- Substring containment (`sub in s`). -/
def sContains (s sub : String) : Bool := listContainsSub sub.data s.data

/-! ## Commit-gate fixtures

Concrete iteration data for the root-fix-gate scenario and for probing
the gate's wording.
-/

/-- A successful, applied fix for the LINTING bug. -/
def lintAppliedFix : IterFix :=
  ⟨lintBugUtils20, true, true, generate_bug_signature lintBugUtils20⟩

/-- A successful, applied fix for the SYNTAX bug at `main.py:1`. -/
def syntaxAppliedFix : IterFix :=
  ⟨syntaxBugMain1, true, true, generate_bug_signature syntaxBugMain1⟩

/-- A successful fix for the SYNTAX bug at `main.py:25` that the git
layer failed to apply (`apply_fix` returned `False`), so it is counted
nowhere in `applied_in_iteration`. -/
def syntaxUnappliedFix : IterFix :=
  ⟨syntaxBugMain25, true, false, generate_bug_signature syntaxBugMain25⟩

/-! # Theorems -/

/-- C2: the iteration-outcome classifier returns `unchanged` exactly for
identical signature lists; otherwise it compares the best (lowest
numeric) bug-type priority on each side (`improved` when the current
best is numerically greater, i.e. less severe; `regressed` when
smaller), then the bug counts at that best tier (fewer → `improved`,
more → `regressed`), and finally falls back to the signature-list sizes
(current no larger → `improved`, larger → `regressed`).  In particular
`classify([SYNTAX, LINTING], [LINTING]) = improved`,
`classify([LINTING], [SYNTAX]) = regressed`, and
`classify([SYNTAX], [SYNTAX]) = unchanged`. -/
theorem classify_iteration_outcome_spec :
    (∀ (prev_sigs curr_sigs : List String) (prev_bugs curr_bugs : List BugReport),
      (classify_iteration_outcome prev_sigs curr_sigs prev_bugs curr_bugs = "unchanged"
          ↔ prev_sigs = curr_sigs)
      ∧ (prev_sigs ≠ curr_sigs →
          (minPriorityDefault prev_bugs < minPriorityDefault curr_bugs →
            classify_iteration_outcome prev_sigs curr_sigs prev_bugs curr_bugs = "improved")
          ∧ (minPriorityDefault curr_bugs < minPriorityDefault prev_bugs →
            classify_iteration_outcome prev_sigs curr_sigs prev_bugs curr_bugs = "regressed")
          ∧ (minPriorityDefault curr_bugs = minPriorityDefault prev_bugs →
              (countAtPriority curr_bugs (minPriorityDefault curr_bugs)
                  < countAtPriority prev_bugs (minPriorityDefault prev_bugs) →
                classify_iteration_outcome prev_sigs curr_sigs prev_bugs curr_bugs = "improved")
              ∧ (countAtPriority prev_bugs (minPriorityDefault prev_bugs)
                  < countAtPriority curr_bugs (minPriorityDefault curr_bugs) →
                classify_iteration_outcome prev_sigs curr_sigs prev_bugs curr_bugs = "regressed")
              ∧ (countAtPriority curr_bugs (minPriorityDefault curr_bugs)
                  = countAtPriority prev_bugs (minPriorityDefault prev_bugs) →
                  (curr_sigs.length ≤ prev_sigs.length →
                    classify_iteration_outcome prev_sigs curr_sigs prev_bugs curr_bugs
                      = "improved")
                  ∧ (prev_sigs.length < curr_sigs.length →
                    classify_iteration_outcome prev_sigs curr_sigs prev_bugs curr_bugs
                      = "regressed")))))
    ∧ classify_iteration_outcome
        (compute_failure_signatures_list [syntaxBugMain1, lintBugUtils20])
        (compute_failure_signatures_list [lintBugUtils20])
        [syntaxBugMain1, lintBugUtils20] [lintBugUtils20] = "improved"
    ∧ classify_iteration_outcome
        (compute_failure_signatures_list [lintBugUtils20])
        (compute_failure_signatures_list [syntaxBugMain1])
        [lintBugUtils20] [syntaxBugMain1] = "regressed"
    ∧ classify_iteration_outcome
        (compute_failure_signatures_list [syntaxBugMain1])
        (compute_failure_signatures_list [syntaxBugMain1])
        [syntaxBugMain1] [syntaxBugMain1] = "unchanged" := by
  refine ⟨fun ps cs pb cb => ?_, by decide, by decide, by decide⟩
  constructor
  · constructor
    · intro h
      by_contra hne
      simp only [classify_iteration_outcome, if_neg hne] at h
      split_ifs at h <;> exact absurd h (by decide)
    · intro h
      simp [classify_iteration_outcome, h]
  · intro hne
    refine ⟨?_, ?_, ?_⟩
    · intro hlt
      simp only [classify_iteration_outcome, if_neg hne]
      split_ifs <;> first | rfl | omega
    · intro hlt
      simp only [classify_iteration_outcome, if_neg hne]
      split_ifs <;> first | rfl | omega
    · intro hbe
      refine ⟨?_, ?_, ?_⟩
      · intro hc
        simp only [classify_iteration_outcome, if_neg hne]
        split_ifs <;> first | rfl | omega
      · intro hc
        simp only [classify_iteration_outcome, if_neg hne]
        split_ifs <;> first | rfl | omega
      · intro hce
        constructor
        · intro hl
          simp only [classify_iteration_outcome, if_neg hne]
          split_ifs <;> first | rfl | omega
        · intro hl
          simp only [classify_iteration_outcome, if_neg hne]
          split_ifs <;> first | rfl | omega

/-- C2 witness: the classifier theorem applied at concrete input —
SYNTAX priority 0 beats LINTING priority 5, so when the best current
priority rose from 0 to 5 the outcome is `improved`. -/
theorem classify_iteration_outcome_spec_witness :
    classify_iteration_outcome ["s1"] ["s2"] [syntaxBugMain1] [lintBugUtils20] = "improved" :=
  ((classify_iteration_outcome_spec.1 ["s1"] ["s2"] [syntaxBugMain1] [lintBugUtils20]).2
    (by decide)).1 (by decide)

theorem stableInsertByKey_perm (key : α → Nat) (x : α) (l : List α) :
    (stableInsertByKey key x l).Perm (x :: l) := by
  induction l with
  | nil => exact List.Perm.refl _
  | cons y ys ih =>
    unfold stableInsertByKey
    split
    · exact List.Perm.refl _
    · exact (ih.cons y).trans (List.Perm.swap x y ys)

theorem pyStableSortByKey_perm (key : α → Nat) (l : List α) :
    (pyStableSortByKey key l).Perm l := by
  induction l with
  | nil => exact List.Perm.refl _
  | cons x xs ih =>
    exact (stableInsertByKey_perm key x (pyStableSortByKey key xs)).trans (ih.cons x)

theorem mem_stableInsertByKey {key : α → Nat} {x a : α} {l : List α} :
    a ∈ stableInsertByKey key x l ↔ a = x ∨ a ∈ l := by
  rw [(stableInsertByKey_perm key x l).mem_iff, List.mem_cons]

theorem stableInsertByKey_pairwise (key : α → Nat) (x : α) {l : List α}
    (h : l.Pairwise (fun a b => key a ≤ key b)) :
    (stableInsertByKey key x l).Pairwise (fun a b => key a ≤ key b) := by
  induction l with
  | nil => simp [stableInsertByKey]
  | cons y ys ih =>
    rcases h with - | ⟨hy, hys⟩
    unfold stableInsertByKey
    split
    · rename_i hxy
      refine List.Pairwise.cons ?_ (List.Pairwise.cons hy hys)
      intro b hb
      rcases List.mem_cons.mp hb with rfl | hb
      · exact hxy
      · exact le_trans hxy (hy b hb)
    · rename_i hxy
      refine List.Pairwise.cons ?_ (ih hys)
      intro b hb
      rcases mem_stableInsertByKey.mp hb with rfl | hb
      · omega
      · exact hy b hb

theorem pyStableSortByKey_pairwise (key : α → Nat) (l : List α) :
    (pyStableSortByKey key l).Pairwise (fun a b => key a ≤ key b) := by
  induction l with
  | nil => simp [pyStableSortByKey]
  | cons x xs ih => exact stableInsertByKey_pairwise key x ih

theorem stableInsertByKey_filter_eq (key : α → Nat) (x : α) (l : List α) (k : Nat)
    (hx : key x = k) :
    (stableInsertByKey key x l).filter (fun a => decide (key a = k))
      = x :: l.filter (fun a => decide (key a = k)) := by
  induction l with
  | nil => simp [stableInsertByKey, hx]
  | cons y ys ih =>
    unfold stableInsertByKey
    split
    · simp [List.filter, hx]
    · rename_i hxy
      have hy : key y ≠ k := by omega
      simp [List.filter, hy, ih]

theorem stableInsertByKey_filter_ne (key : α → Nat) (x : α) (l : List α) (k : Nat)
    (hx : key x ≠ k) :
    (stableInsertByKey key x l).filter (fun a => decide (key a = k))
      = l.filter (fun a => decide (key a = k)) := by
  induction l with
  | nil => simp [stableInsertByKey, hx]
  | cons y ys ih =>
    unfold stableInsertByKey
    split
    · simp [List.filter, hx]
    · simp only [List.filter, ih]

theorem pyStableSortByKey_filter (key : α → Nat) (l : List α) (k : Nat) :
    (pyStableSortByKey key l).filter (fun a => decide (key a = k))
      = l.filter (fun a => decide (key a = k)) := by
  induction l with
  | nil => rfl
  | cons x xs ih =>
    by_cases hx : key x = k
    · rw [pyStableSortByKey, stableInsertByKey_filter_eq key x _ k hx, ih]
      simp [List.filter, hx]
    · rw [pyStableSortByKey, stableInsertByKey_filter_ne key x _ k hx, ih]
      simp [List.filter, hx]

/-- C4 counterexample: two LINTING bugs arriving as
`[b.py:5, a.py:3]` — the order a merged detector list can reasonably
produce — are processed in that same order by `_sort_bugs_by_priority`
(Python's `sorted` is stable and the key is the bug-type priority
alone), violating the claimed file-path/line-number tie-break, which
would demand `a.py:3` first. -/
theorem sort_bugs_tiebreak_counterexample :
    pairwiseChainB tieBreakLe (sort_bugs_by_priority
      [⟨"LINTING", "lint_violation", "b.py", 5⟩, ⟨"LINTING", "lint_violation", "a.py", 3⟩])
      = false := by decide

/-- C4 amended: the per-bug fix cycle processes BugReports in
non-decreasing bug-type priority order (SYNTAX → IMPORT → TYPE_ERROR →
INDENTATION → LOGIC → LINTING); the sorted batch is a permutation of
the detected bugs; and among bugs of equal priority the original
detection order is preserved (the sort is stable) — ties are *not*
re-ordered by file path or line number. -/
theorem sort_bugs_by_priority_spec :
    ∀ bugs : List BugReport,
      (sort_bugs_by_priority bugs).Perm bugs
      ∧ (sort_bugs_by_priority bugs).Pairwise
          (fun a b => priority_of a.bug_type ≤ priority_of b.bug_type)
      ∧ ∀ p : Nat,
          (sort_bugs_by_priority bugs).filter (fun b => decide (priority_of b.bug_type = p))
            = bugs.filter (fun b => decide (priority_of b.bug_type = p)) :=
  fun bugs =>
    ⟨pyStableSortByKey_perm _ bugs, pyStableSortByKey_pairwise _ bugs,
      fun p => pyStableSortByKey_filter _ bugs p⟩

theorem assocUpdate_length (sig : String) (v : List String)
    (l : List (String × List String)) : (assocUpdate sig v l).length = l.length := by
  induction l with
  | nil => rfl
  | cons p rest ih =>
    unfold assocUpdate
    split <;> simp [ih]

theorem mem_assocUpdate {sig : String} {v : List String} {p : String × List String}
    {l : List (String × List String)} (h : p ∈ assocUpdate sig v l) :
    p.2 = v ∨ p ∈ l := by
  induction l with
  | nil => simp [assocUpdate] at h
  | cons q rest ih =>
    unfold assocUpdate at h
    split at h
    · rcases List.mem_cons.mp h with rfl | h
      · exact Or.inl rfl
      · exact Or.inr (List.mem_cons_of_mem _ h)
    · rcases List.mem_cons.mp h with rfl | h
      · exact Or.inr (List.mem_cons_self _ _)
      · rcases ih h with h | h
        · exact Or.inl h
        · exact Or.inr (List.mem_cons_of_mem _ h)

theorem assocFind_mem {sig : String} {v : List String} :
    ∀ {l : List (String × List String)}, assocFind sig l = some v → (sig, v) ∈ l := by
  intro l
  induction l with
  | nil => intro h; simp [assocFind] at h
  | cons p rest ih =>
    intro h
    unfold assocFind at h
    split at h
    · rename_i heq
      obtain rfl : p.2 = v := by injection h
      rcases p with ⟨s, w⟩
      obtain rfl : s = sig := heq
      exact List.mem_cons_self _ _
    · exact List.mem_cons_of_mem _ (ih h)

theorem assocFind_update_self {sig : String} {w : List String} (v : List String) :
    ∀ {l : List (String × List String)}, assocFind sig l = some w →
      assocFind sig (assocUpdate sig v l) = some v := by
  intro l
  induction l with
  | nil => intro h; simp [assocFind] at h
  | cons p rest ih =>
    intro h
    unfold assocFind at h
    unfold assocUpdate
    split
    · rename_i heq
      simp [assocFind, heq]
    · rename_i hne
      rw [if_neg hne] at h
      simp only [assocFind, if_neg hne]
      exact ih h

theorem dequeAppend_length_le (cap : Nat) (l : List String) (x : String) :
    (dequeAppend cap l x).length ≤ cap := by
  simp only [dequeAppend, List.length_drop, List.length_append, List.length_cons,
    List.length_nil]
  omega

theorem FixHistoryStore.add_eq_some {st : FixHistoryStore} {sig : String}
    {l : List String} (fp : String) (h : assocFind sig st.store = some l) :
    st.add sig fp
      = { st with store := assocUpdate sig (dequeAppend st.per_bug_cap l fp) st.store } := by
  unfold FixHistoryStore.add
  rw [h]

theorem FixHistoryStore.add_eq_none {st : FixHistoryStore} {sig : String}
    (fp : String) (h : assocFind sig st.store = none) :
    st.add sig fp
      = { st with store :=
            (if st.store.length ≥ st.global_cap then st.store.drop 1 else st.store)
              ++ [(sig, dequeAppend st.per_bug_cap [] fp)] } := by
  unfold FixHistoryStore.add
  rw [h]

theorem FixHistoryStore.add_caps (st : FixHistoryStore) (sig fp : String) :
    (st.add sig fp).per_bug_cap = st.per_bug_cap
      ∧ (st.add sig fp).global_cap = st.global_cap := by
  cases h : assocFind sig st.store with
  | some l => rw [FixHistoryStore.add_eq_some fp h]; exact ⟨rfl, rfl⟩
  | none => rw [FixHistoryStore.add_eq_none fp h]; exact ⟨rfl, rfl⟩

theorem FixHistoryStore.add_inv (st : FixHistoryStore) (sig fp : String)
    (hg : 1 ≤ st.global_cap) (h1 : st.store.length ≤ st.global_cap)
    (h2 : ∀ p ∈ st.store, p.2.length ≤ st.per_bug_cap) :
    (st.add sig fp).store.length ≤ st.global_cap
      ∧ ∀ p ∈ (st.add sig fp).store, p.2.length ≤ st.per_bug_cap := by
  cases hfind : assocFind sig st.store with
  | some l =>
    rw [FixHistoryStore.add_eq_some fp hfind]
    refine ⟨?_, ?_⟩
    · simpa [assocUpdate_length] using h1
    · intro p hp
      simp only at hp
      rcases mem_assocUpdate hp with h | h
      · rw [h]; exact dequeAppend_length_le _ _ _
      · exact h2 p h
  | none =>
    rw [FixHistoryStore.add_eq_none fp hfind]
    refine ⟨?_, ?_⟩
    · simp only [List.length_append, List.length_cons, List.length_nil]
      split
      · simp only [List.length_drop]; omega
      · omega
    · intro p hp
      simp only [List.mem_append, List.mem_cons, List.not_mem_nil, or_false] at hp
      rcases hp with hp | rfl
      · have hmem : p ∈ st.store := by
          revert hp
          split
          · exact fun hp => List.drop_subset _ _ hp
          · exact fun hp => hp
        exact h2 p hmem
      · exact dequeAppend_length_le _ _ _

theorem FixHistoryStore.foldl_inv :
    ∀ (ops : List (String × String)) (st : FixHistoryStore),
      1 ≤ st.global_cap → st.store.length ≤ st.global_cap →
      (∀ p ∈ st.store, p.2.length ≤ st.per_bug_cap) →
      (ops.foldl (fun s op => s.add op.1 op.2) st).store.length ≤ st.global_cap
        ∧ ∀ p ∈ (ops.foldl (fun s op => s.add op.1 op.2) st).store,
            p.2.length ≤ st.per_bug_cap := by
  intro ops
  induction ops with
  | nil => exact fun st _ h1 h2 => ⟨h1, h2⟩
  | cons op rest ih =>
    intro st hg h1 h2
    have hstep := FixHistoryStore.add_inv st op.1 op.2 hg h1 h2
    have hcaps := FixHistoryStore.add_caps st op.1 op.2
    have := ih (st.add op.1 op.2) (hcaps.2 ▸ hg) (hcaps.2 ▸ hstep.1)
      (fun p hp => hcaps.1 ▸ hstep.2 p hp)
    simpa [hcaps.1, hcaps.2] using this

theorem foldl_dequeAppend (cap : Nat) :
    ∀ (fps : List String) (l : List String), l.length ≤ cap →
      fps.foldl (fun acc f => dequeAppend cap acc f) l
        = (l ++ fps).drop (l.length + fps.length - cap) := by
  intro fps
  induction fps with
  | nil =>
    intro l h
    simp [Nat.sub_eq_zero_of_le h]
  | cons f fps ih =>
    intro l h
    rw [List.foldl_cons, ih _ (dequeAppend_length_le cap l f)]
    have hd : dequeAppend cap l f = (l ++ [f]).drop (l.length + 1 - cap) := by
      simp [dequeAppend]
    have hlen : (dequeAppend cap l f).length = min (l.length + 1) cap := by
      simp only [dequeAppend, List.length_drop, List.length_append, List.length_cons,
        List.length_nil]
      omega
    rw [hlen, hd]
    have hjoin : (l ++ [f]).drop (l.length + 1 - cap) ++ fps
        = ((l ++ [f]) ++ fps).drop (l.length + 1 - cap) := by
      have hz : (l.length + 1 - cap) - (l ++ [f]).length = 0 := by
        simp only [List.length_append, List.length_cons, List.length_nil]
        omega
      conv_rhs => rw [List.drop_append_eq_append_drop]
      rw [hz, List.drop_zero]
    rw [hjoin, List.drop_drop]
    rw [show (l ++ [f]) ++ fps = l ++ f :: fps by simp]
    congr 1
    simp only [List.length_cons]
    omega

theorem ofOps_singleSig_aux (sig : String) :
    ∀ (fps : List String) (acc : List String),
      ((fps.map (fun f => (sig, f))).foldl (fun st op => st.add op.1 op.2)
          (FixHistoryStore.mk [(sig, acc)] FP_CAP_PER_BUG FP_CAP_GLOBAL)).get_fingerprints sig
        = fps.foldl (fun l f => dequeAppend FP_CAP_PER_BUG l f) acc := by
  intro fps
  induction fps with
  | nil =>
    intro acc
    simp [FixHistoryStore.get_fingerprints, assocFind]
  | cons f fps ih =>
    intro acc
    have hfind : assocFind sig [(sig, acc)] = some acc := by
      simp [assocFind]
    have hstep :
        (FixHistoryStore.mk [(sig, acc)] FP_CAP_PER_BUG FP_CAP_GLOBAL).add sig f
          = FixHistoryStore.mk [(sig, dequeAppend FP_CAP_PER_BUG acc f)]
              FP_CAP_PER_BUG FP_CAP_GLOBAL := by
      rw [FixHistoryStore.add_eq_some f hfind]
      simp [assocUpdate]
    simp only [List.map_cons, List.foldl_cons, hstep]
    exact ih (dequeAppend FP_CAP_PER_BUG acc f)

/-- C7: the bounded fix-history store keeps at most 5 fingerprints per
bug signature and at most 200 tracked signatures after any insertion
sequence; appending to a tracked signature keeps exactly the most
recent `per_bug_cap` fingerprints (FIFO, oldest evicted first); adding
a new signature to a full store evicts the oldest-inserted signature
together with all its fingerprints; a single signature receiving `n`
fingerprints retains exactly the last 5 — in particular after 10
insertions exactly `f6 … f10` remain retrievable. -/
theorem fix_history_bounds :
    (∀ (ops : List (String × String)) (sig : String),
        ((FixHistoryStore.ofOps ops).get_fingerprints sig).length ≤ FP_CAP_PER_BUG)
    ∧ (∀ ops : List (String × String),
        (FixHistoryStore.ofOps ops).store.length ≤ FP_CAP_GLOBAL)
    ∧ (∀ (st : FixHistoryStore) (sig fp : String) (l : List String),
        assocFind sig st.store = some l →
        (st.add sig fp).get_fingerprints sig
          = (l ++ [fp]).drop (l.length + 1 - st.per_bug_cap))
    ∧ (∀ (st : FixHistoryStore) (sig fp s₀ : String) (l₀ : List String)
          (rest : List (String × List String)),
        st.store = (s₀, l₀) :: rest → assocFind sig st.store = none →
        st.global_cap ≤ st.store.length →
        (st.add sig fp).store = rest ++ [(sig, dequeAppend st.per_bug_cap [] fp)])
    ∧ (∀ (sig : String) (fps : List String),
        (FixHistoryStore.ofOps (fps.map (fun f => (sig, f)))).get_fingerprints sig
          = fps.drop (fps.length - FP_CAP_PER_BUG))
    ∧ (FixHistoryStore.ofOps
          [("s", "f1"), ("s", "f2"), ("s", "f3"), ("s", "f4"), ("s", "f5"),
           ("s", "f6"), ("s", "f7"), ("s", "f8"), ("s", "f9"), ("s", "f10")]).get_fingerprints
        "s" = ["f6", "f7", "f8", "f9", "f10"] := by
  have hinv : ∀ ops : List (String × String),
      (FixHistoryStore.ofOps ops).store.length ≤ FP_CAP_GLOBAL
        ∧ ∀ p ∈ (FixHistoryStore.ofOps ops).store, p.2.length ≤ FP_CAP_PER_BUG := by
    intro ops
    exact FixHistoryStore.foldl_inv ops FixHistoryStore.empty (by decide) (by decide)
      (by intro p hp; simp [FixHistoryStore.empty] at hp)
  refine ⟨?_, fun ops => (hinv ops).1, ?_, ?_, ?_, by decide⟩
  · intro ops sig
    unfold FixHistoryStore.get_fingerprints
    cases hfind : assocFind sig (FixHistoryStore.ofOps ops).store with
    | none => simp
    | some l =>
      simpa using (hinv ops).2 (sig, l) (assocFind_mem hfind)
  · intro st sig fp l hfind
    rw [FixHistoryStore.add_eq_some fp hfind]
    simp only [FixHistoryStore.get_fingerprints, assocFind_update_self _ hfind,
      Option.getD_some]
    simp [dequeAppend]
  · intro st sig fp s₀ l₀ rest hstore hfind hfull
    rw [FixHistoryStore.add_eq_none fp hfind]
    simp only [hstore]
    rw [if_pos (by rw [← hstore]; exact hfull)]
    simp
  · intro sig fps
    cases fps with
    | nil => simp [FixHistoryStore.ofOps, FixHistoryStore.empty,
        FixHistoryStore.get_fingerprints, assocFind]
    | cons f fps =>
      have hfirst :
          (FixHistoryStore.empty.add sig f)
            = FixHistoryStore.mk [(sig, dequeAppend FP_CAP_PER_BUG [] f)]
                FP_CAP_PER_BUG FP_CAP_GLOBAL := by
        rw [FixHistoryStore.add_eq_none f (by simp [FixHistoryStore.empty, assocFind])]
        simp [FixHistoryStore.empty, FP_CAP_GLOBAL]
      simp only [FixHistoryStore.ofOps, List.map_cons, List.foldl_cons, hfirst]
      rw [ofOps_singleSig_aux]
      rw [foldl_dequeAppend FP_CAP_PER_BUG fps (dequeAppend FP_CAP_PER_BUG [] f)
        (dequeAppend_length_le _ _ _)]
      have : dequeAppend FP_CAP_PER_BUG [] f = [f] := by simp [dequeAppend, FP_CAP_PER_BUG]
      rw [this]
      simp only [List.singleton_append, List.length_singleton, List.length_cons,
        List.length_nil]
      congr 1
      omega

/-- C7 witness: the per-signature FIFO step and global-eviction step of
`fix_history_bounds` applied at concrete stores. -/
theorem fix_history_bounds_witness :
    ((FixHistoryStore.mk [("a", ["x1", "x2", "x3", "x4", "x5"])] 5 200).add "a" "x6").get_fingerprints "a"
        = ["x2", "x3", "x4", "x5", "x6"]
      ∧ ((FixHistoryStore.mk [("a", ["x1"]), ("b", ["y1"])] 5 2).add "c" "z1").store
        = [("b", ["y1"]), ("c", ["z1"])] := by
  constructor
  · have := (fix_history_bounds.2.2.1) (FixHistoryStore.mk [("a", ["x1", "x2", "x3", "x4", "x5"])] 5 200)
      "a" "x6" ["x1", "x2", "x3", "x4", "x5"] (by decide)
    rw [this]
    decide
  · have := (fix_history_bounds.2.2.2.1) (FixHistoryStore.mk [("a", ["x1"]), ("b", ["y1"])] 5 2)
      "c" "z1" "a" ["x1"] [("b", ["y1"])] rfl (by decide) (by decide)
    rw [this]
    decide

/-- C9: a push to a branch named `main` or `master` is refused with
status `rejected_main`, and — those protected names aside (the
protected-name gate runs first and also catches case variants) — a push
to any branch name failing the `^[A-Z0-9_]+_AI_Fix$` naming convention
is refused with `invalid_branch_name`; in both cases the trace of git
subprocess invocations is empty, i.e. zero network calls are issued,
whatever the remote would have answered. -/
theorem push_safety_gates :
    ∀ (env : PushEnv) (branch : String),
      ((branch = "main" ∨ branch = "master") →
        GitAgent.push env branch = ("rejected_main", []))
      ∧ (pyLower branch ≠ "main" → pyLower branch ≠ "master" →
          validate_branch_name branch = false →
          GitAgent.push env branch = ("invalid_branch_name", [])) := by
  intro env branch
  constructor
  · rintro (rfl | rfl) <;>
      · unfold GitAgent.push
        rw [if_pos (by decide)]
  · intro h1 h2 h3
    unfold GitAgent.push
    rw [if_neg (not_or.mpr ⟨h1, h2⟩), if_pos (by rw [h3]; rfl)]

/-- C9 witness: the push gates evaluated at `main` and at a
convention-violating feature-branch name. -/
theorem push_safety_gates_witness :
    GitAgent.push ⟨fun _ => true, true, true⟩ "main" = ("rejected_main", [])
      ∧ GitAgent.push ⟨fun _ => true, true, true⟩ "feature-x" = ("invalid_branch_name", []) :=
  ⟨(push_safety_gates ⟨fun _ => true, true, true⟩ "main").1 (Or.inl rfl),
   (push_safety_gates ⟨fun _ => true, true, true⟩ "feature-x").2
     (by decide) (by decide) (by decide)⟩

/-- C10: the apply-fix path guard evaluated on the failing input
`workspace = "/w"`, `file_path = "../wx/e"`: the target resolves to
`/wx/e`, which is *not* under the workspace, yet the guard's
string-prefix check (`"/wx/e".startswith("/w")`) passes and `apply_fix`
proceeds to write outside the workspace — contradicting the guard's own
"Security violation: attempt to write outside workspace" intent.  The
remaining conjuncts confirm the other guard clauses: an unsuccessful
fix or empty patched content is always refused with nothing written. -/
theorem apply_fix_guard_divergence :
    apply_fix_write_allowed true "fixed" 0 "/w" "../wx/e" = true
    ∧ resolvesUnderWorkspace "/w" (normpathPosix (pyJoin "/w" "../wx/e")) = false
    ∧ normpathPosix (pyJoin "/w" "../wx/e") = "/wx/e"
    ∧ (∀ (pc : String) (cc : Nat) (w f : String),
        apply_fix_write_allowed false pc cc w f = false)
    ∧ (∀ (s : Bool) (cc : Nat) (w f : String),
        apply_fix_write_allowed s "" cc w f = false) := by
  refine ⟨by decide, by decide, by decide, ?_, ?_⟩
  · intro pc cc w f
    simp [apply_fix_write_allowed]
  · intro s cc w f
    simp [apply_fix_write_allowed]

/-- C3: once the elapsed wall-clock time at the top of an iteration has
reached `_GUARDRAIL_ABORT`, the loop returns immediately from that same
iteration — for every environment (any behaviour of the iteration
body), any remaining iteration budget and any incoming state — with
status `exhausted` and the guardrail summary, which survives the
end-of-run finalisation and mentions the guardrail; furthermore the
performance-aware batch truncation caps the bugs fixed per iteration at
3 under the `reduced` hint and at 1 under the `critical` hint. -/
theorem guardrail_abort_and_batch_caps :
    (∀ (env : LoopEnv) (fuel i : Nat) (st : RunControlState),
        GUARDRAIL_ABORT ≤ env.elapsed i →
        healLoopAux env (fuel + 1) i st
          = { st with iteration := i,
                      performance_hint := get_performance_hint (env.elapsed i),
                      status := "exhausted",
                      execution_summary := guardrailSummary })
    ∧ (∀ st : RunControlState, st.status = "exhausted" → finalizeRun st = st)
    ∧ sContains guardrailSummary "guardrail" = true
    ∧ (∀ (remaining : ℚ) (bugs : List BugReport),
        (apply_batch_limit "reduced" remaining bugs).length ≤ 3)
    ∧ (∀ (remaining : ℚ) (bugs : List BugReport),
        (apply_batch_limit "critical" remaining bugs).length ≤ 1) := by
  refine ⟨?_, ?_, by decide, ?_, ?_⟩
  · intro env fuel i st h
    simp only [healLoopAux]
    rw [if_pos h]
  · intro st h
    unfold finalizeRun
    rw [if_neg (by rw [h]; decide)]
  · intro remaining bugs
    unfold apply_batch_limit
    split_ifs with h1 h2
    · simp only [List.length_take]; omega
    · simp only [List.length_take]; omega
    · exact absurd rfl h2
  · intro remaining bugs
    unfold apply_batch_limit
    rw [if_pos (Or.inl rfl)]
    simp only [List.length_take]
    omega

/-- C3 witness: with 300 s elapsed at iteration 1 and budget for five
iterations, the loop aborts inside iteration 1 with the exhausted
status and the guardrail summary, and finalisation keeps that state. -/
theorem guardrail_abort_and_batch_caps_witness :
    healLoopAux (LoopEnv.mk (fun _ => 300) (fun _ st => (st, true))) 5 1
        (RunControlState.mk 0 "normal" "pending" "")
      = RunControlState.mk 1 "critical" "exhausted" guardrailSummary
    ∧ finalizeRun (RunControlState.mk 1 "critical" "exhausted" guardrailSummary)
      = RunControlState.mk 1 "critical" "exhausted" guardrailSummary := by
  constructor
  · have h := guardrail_abort_and_batch_caps.1
      (LoopEnv.mk (fun _ => 300) (fun _ st => (st, true))) 4 1
      (RunControlState.mk 0 "normal" "pending" "") (by norm_num [GUARDRAIL_ABORT])
    exact h
  · exact guardrail_abort_and_batch_caps.2.1 _ rfl

theorem natChars_digit : ∀ n : Nat, ∀ c ∈ natChars n, 48 ≤ c.toNat ∧ c.toNat ≤ 57 := by
  intro n
  induction n using Nat.strong_induction_on with
  | _ n ih =>
    rw [natChars]
    split
    · rename_i h10
      intro c hc
      rcases List.mem_singleton.mp hc with rfl
      interval_cases n <;> decide
    · rename_i h10
      intro c hc
      rcases List.mem_append.mp hc with hc | hc
      · exact ih (n / 10) (Nat.div_lt_self (by omega) (by norm_num)) c hc
      · rcases List.mem_singleton.mp hc with rfl
        have hm : n % 10 < 10 := Nat.mod_lt _ (by norm_num)
        generalize n % 10 = m at hm ⊢
        interval_cases m <;> decide

theorem digitsToNat_append (l : List Char) (c : Char) :
    digitsToNat (l ++ [c]) = digitsToNat l * 10 + (c.toNat - 48) := by
  simp [digitsToNat, List.foldl_append]

theorem digitsToNat_natChars : ∀ n : Nat, digitsToNat (natChars n) = n := by
  intro n
  induction n using Nat.strong_induction_on with
  | _ n ih =>
    rw [natChars]
    split
    · rename_i h10
      interval_cases n <;> decide
    · rename_i h10
      rw [digitsToNat_append, ih (n / 10) (Nat.div_lt_self (by omega) (by norm_num))]
      have hm : n % 10 < 10 := Nat.mod_lt _ (by norm_num)
      have hd : (Nat.digitChar (n % 10)).toNat - 48 = n % 10 := by
        generalize n % 10 = m at hm ⊢
        interval_cases m <;> decide
      rw [hd]
      omega

theorem toDigitsCore_eq :
    ∀ (fuel n : Nat) (ds : List Char), n < fuel →
      Nat.toDigitsCore 10 fuel n ds = natChars n ++ ds := by
  intro fuel
  induction fuel with
  | zero => intro n ds h; omega
  | succ fuel ih =>
    intro n ds h
    simp only [Nat.toDigitsCore]
    split
    · rename_i hz
      have h10 : n < 10 := by
        rcases Nat.div_eq_zero_iff (by norm_num : 0 < 10) |>.mp hz with h
        exact h
      rw [natChars, if_pos h10, Nat.mod_eq_of_lt h10]
      rfl
    · rename_i hz
      have h10 : ¬ n < 10 := by
        intro hlt
        exact hz (Nat.div_eq_zero_iff (by norm_num : 0 < 10) |>.mpr hlt)
      have hdiv : n / 10 < fuel := by
        have h1 : n / 10 < n := Nat.div_lt_self (by omega) (by norm_num)
        omega
      rw [ih (n / 10) _ hdiv]
      conv_rhs => rw [natChars]
      rw [if_neg h10, List.append_assoc]
      rfl

theorem natRepr_data (n : Nat) : (Nat.repr n).data = natChars n := by
  simp only [Nat.repr, Nat.toDigits]
  rw [toDigitsCore_eq (n + 1) n [] (by omega)]
  simp [List.asString]

theorem natRepr_injective {m n : Nat} (h : Nat.repr m = Nat.repr n) : m = n := by
  have := congrArg String.data h
  rw [natRepr_data, natRepr_data] at this
  have := congrArg digitsToNat this
  rwa [digitsToNat_natChars, digitsToNat_natChars] at this

theorem splitColon :
    ∀ (l₁ : List Char) (l₂ r₁ r₂ : List Char), ':' ∉ l₁ → ':' ∉ l₂ →
      l₁ ++ ':' :: r₁ = l₂ ++ ':' :: r₂ → l₁ = l₂ ∧ r₁ = r₂ := by
  intro l₁
  induction l₁ with
  | nil =>
    intro l₂ r₁ r₂ _ h₂ heq
    cases l₂ with
    | nil => simpa using heq
    | cons b l₂ =>
      simp only [List.nil_append, List.cons_append, List.cons.injEq] at heq
      exact absurd (heq.1 ▸ List.mem_cons_self b l₂) (heq.1 ▸ h₂)
  | cons a l₁ ih =>
    intro l₂ r₁ r₂ h₁ h₂ heq
    cases l₂ with
    | nil =>
      simp only [List.cons_append, List.nil_append, List.cons.injEq] at heq
      exact absurd (heq.1 ▸ List.mem_cons_self a l₁) (fun hmem => h₁ (heq.1 ▸ hmem))
    | cons b l₂ =>
      simp only [List.cons_append, List.cons.injEq] at heq
      obtain ⟨rfl, heq⟩ := heq
      have := ih l₂ r₁ r₂ (fun hm => h₁ (List.mem_cons_of_mem _ hm))
        (fun hm => h₂ (List.mem_cons_of_mem _ hm)) heq
      exact ⟨by rw [this.1], this.2⟩

theorem colon_not_mem_repr (n : Nat) : ':' ∉ (Nat.repr n).data := by
  rw [natRepr_data]
  intro hmem
  exact absurd (natChars_digit n ':' hmem).2 (by decide)

/-- C8 counterexample: the identity string `f"{file_path}:{line_number}:{sub_type}"`
does not delimit its fields — a colon inside `file_path` shifts the
field boundaries, so the two distinct bugs `(file_path="a:1", line=2,
sub_type="s")` and `(file_path="a", line=1, sub_type="2:s")` serialise
to the same string `"a:1:2:s"` and hence receive the same SHA-256
signature although their `file_path` (and `line_number`, and
`sub_type`) differ. -/
theorem bug_signature_collision :
    generate_bug_signature (BugReport.mk "SYNTAX" "s" "a:1" 2)
      = generate_bug_signature (BugReport.mk "SYNTAX" "2:s" "a" 1)
    ∧ (BugReport.mk "SYNTAX" "s" "a:1" 2).file_path
      ≠ (BugReport.mk "SYNTAX" "2:s" "a" 1).file_path :=
  ⟨congrArg sha256hex16 (by rfl), by decide⟩

/-- C8 amended: the bug signature is deterministic, and the identity
string it hashes is injective on `(file_path, line_number, sub_type)`
*provided the file paths contain no colon* (true of real repository
paths): two bugs with colon-free file paths that differ in any of the
three fields have different identity strings, hence different SHA-256
inputs.  (Distinctness of the truncated 64-bit hash values themselves
additionally assumes collision-freedom of SHA-256 on these inputs,
which no implementation can guarantee unconditionally.) -/
theorem bug_signature_amended :
    (∀ b : BugReport, generate_bug_signature b = generate_bug_signature b)
    ∧ (∀ a b : BugReport, ':' ∉ a.file_path.data → ':' ∉ b.file_path.data →
        (a.file_path ≠ b.file_path ∨ a.line_number ≠ b.line_number
          ∨ a.sub_type ≠ b.sub_type) →
        bugIdentityString a ≠ bugIdentityString b) := by
  refine ⟨fun b => rfl, ?_⟩
  intro a b ha hb hdiff heq
  have hts : ∀ n : Nat, (toString n : String) = Nat.repr n := fun _ => rfl
  have hdata := congrArg String.data heq
  simp only [bugIdentityString, hts, String.data_append, List.append_assoc,
    List.singleton_append] at hdata
  have hsplit1 := splitColon a.file_path.data b.file_path.data _ _ ha hb hdata
  have hsplit2 := splitColon (Nat.repr a.line_number).data (Nat.repr b.line_number).data
    _ _ (colon_not_mem_repr _) (colon_not_mem_repr _) hsplit1.2
  have hfp : a.file_path = b.file_path := by
    apply String.ext
    exact hsplit1.1
  have hline : a.line_number = b.line_number :=
    natRepr_injective (String.ext hsplit2.1)
  have hst : a.sub_type = b.sub_type := by
    apply String.ext
    exact hsplit2.2
  rcases hdiff with h | h | h <;> exact h (by simp_all)

/-- C8 witness: the amended injectivity applied to two bugs in the same
colon-free file differing only in line number. -/
theorem bug_signature_amended_witness :
    bugIdentityString (BugReport.mk "SYNTAX" "invalid_syntax" "a.py" 3)
      ≠ bugIdentityString (BugReport.mk "SYNTAX" "invalid_syntax" "a.py" 4) :=
  bug_signature_amended.2 (BugReport.mk "SYNTAX" "invalid_syntax" "a.py" 3)
    (BugReport.mk "SYNTAX" "invalid_syntax" "a.py" 4)
    (by decide) (by decide) (Or.inr (Or.inl (by decide)))

theorem effective_pos_iff (fixes : List IterFix) (pre post : List String) :
    0 < effective_in_iteration fixes pre post ↔
      ∃ f ∈ fixes, f.success = true ∧ 0 < score_effectiveness f pre post := by
  unfold effective_in_iteration
  rw [List.countP_pos]
  constructor
  · rintro ⟨f, hf, hp⟩
    rw [List.mem_filter] at hf
    exact ⟨f, hf.1, hf.2, by simpa using hp⟩
  · rintro ⟨f, hf, hs, hscore⟩
    exact ⟨f, List.mem_filter.mpr ⟨hf, hs⟩, by simpa using hscore⟩

theorem root_fix_any_iff (fixes : List IterFix) :
    (fixes.any fun f => f.success && fix_targets_root f) = true ↔
      ∃ f ∈ fixes, f.success = true ∧ fix_targets_root f = true := by
  simp [List.any_eq_true]

/-- C1 counterexample to the claim's wording: conditions two and three
of the gate range over *successful* fixes, not *applied* ones.  In this
iteration the SYNTAX fix at `main.py:25` was accepted (`success`) but
the git layer failed to apply it, while the LINTING fix was applied;
after re-execution the syntax failure is still present (drifted to line
24, so both fixes score positively).  A root failure remains and no
*applied* fix targeted a root bug type — the claim demands the gate stay
closed — yet `should_commit` opens because the unapplied-but-successful
SYNTAX fix satisfies its root-fix disjunct. -/
theorem commit_gate_wording_counterexample :
    should_commit [syntaxUnappliedFix, lintAppliedFix]
        (compute_failure_signatures_list [syntaxBugMain25, lintBugUtils20])
        (compute_failure_signatures_list [syntaxBugMain24])
        [syntaxBugMain24] = true
    ∧ spec_commit_conditions [syntaxUnappliedFix, lintAppliedFix]
        (compute_failure_signatures_list [syntaxBugMain25, lintBugUtils20])
        (compute_failure_signatures_list [syntaxBugMain24])
        [syntaxBugMain24] = false := by
  constructor
  · decide
  · decide

/-- C1 amended: the commit/push gate opens exactly when (1) at least
one patch was applied this iteration, (2) at least one *successful*
(accepted) fix scored `effectiveness_score > 0`, and (3) either no
SYNTAX/IMPORT (root) bug remains post-fix or at least one *successful*
fix targeted a root bug type.  In the scenario with pre-fix bugs
`[SYNTAX@main.py:1, LINTING@utils.py:20]`: applying only the LINTING
fix while the SYNTAX failure persists does not commit, and applying the
SYNTAX fix opens the gate even though LINTING remains. -/
theorem commit_gate_spec :
    (∀ (fixes : List IterFix) (pre post : List String) (post_bugs : List BugReport),
      should_commit fixes pre post post_bugs = true ↔
        (0 < applied_in_iteration fixes
          ∧ (∃ f ∈ fixes, f.success = true ∧ 0 < score_effectiveness f pre post)
          ∧ (has_root_failures post_bugs = false
              ∨ ∃ f ∈ fixes, f.success = true ∧ fix_targets_root f = true)))
    ∧ should_commit [lintAppliedFix]
        (compute_failure_signatures_list [syntaxBugMain1, lintBugUtils20])
        (compute_failure_signatures_list [syntaxBugMain1]) [syntaxBugMain1] = false
    ∧ should_commit [syntaxAppliedFix]
        (compute_failure_signatures_list [syntaxBugMain1, lintBugUtils20])
        (compute_failure_signatures_list [lintBugUtils20]) [lintBugUtils20] = true := by
  refine ⟨?_, by decide, by decide⟩
  intro fixes pre post post_bugs
  unfold should_commit
  simp only [Bool.and_eq_true, decide_eq_true_eq, Bool.or_eq_true, Bool.not_eq_true',
    gt_iff_lt]
  rw [effective_pos_iff, root_fix_any_iff]
  tauto

/-- C1 witness: the amended gate opened by a concrete applied,
successful, positively scoring root fix with an empty post-fix bug set. -/
theorem commit_gate_spec_witness :
    should_commit [syntaxAppliedFix] ["s1"] [] [] = true :=
  (commit_gate_spec.1 [syntaxAppliedFix] ["s1"] [] []).mpr
    ⟨by decide, ⟨syntaxAppliedFix, by decide, rfl, by decide⟩, Or.inl (by decide)⟩

theorem shaRound_length (st : List Nat) (k w : Nat) :
    (shaRound st k w).length = st.length := by
  unfold shaRound
  split
  · simp_all
  · rfl

theorem foldl_shaRound_length (l : List (Nat × Nat)) (h : List Nat) :
    (l.foldl (fun s kw => shaRound s kw.1 kw.2) h).length = h.length := by
  induction l generalizing h with
  | nil => rfl
  | cons kw l ih =>
    simp only [List.foldl_cons]
    rw [ih, shaRound_length]

theorem processBlock_length (h b : List Nat) (hh : h.length = 8) :
    (processBlock h b).length = 8 := by
  unfold processBlock
  rw [List.length_zipWith, foldl_shaRound_length]
  omega

theorem foldl_processBlock_length (blocks : List (List Nat)) (H : List Nat)
    (hH : H.length = 8) : (blocks.foldl processBlock H).length = 8 := by
  induction blocks generalizing H with
  | nil => exact hH
  | cons b blocks ih =>
    simp only [List.foldl_cons]
    exact ih _ (processBlock_length H b hH)

theorem sha256hex16_ne_empty (s : String) : sha256hex16 s ≠ "" := by
  unfold sha256hex16
  intro h
  have hd := congrArg String.data h
  simp only at hd
  have hfinal : ((chunks64 (shaPad (utf8Encode s))).foldl processBlock shaH0).length = 8 :=
    foldl_processBlock_length _ _ (by rfl)
  unfold sha256hex at hd
  cases hcase : (chunks64 (shaPad (utf8Encode s))).foldl processBlock shaH0 with
  | nil => rw [hcase] at hfinal; simp at hfinal
  | cons a rest =>
    rw [hcase] at hd
    simp [wordHex, List.flatMap] at hd

theorem generate_fix_fingerprint_ne_empty (b : BugReport) (diff : String) :
    generate_fix_fingerprint b diff ≠ "" := by
  unfold generate_fix_fingerprint generate_bug_signature
  simp only []
  split
  · exact sha256hex16_ne_empty _
  · exact sha256hex16_ne_empty _

/-- C6: proposing the byte-identical diff for the same bug twice within
one run is rejected on the second attempt with
`escalation_reason = REPEATED_FIX` — the fix agent's validation
pipeline computes the same fingerprint both times (the fingerprint is a
pure function of bug identity and diff bytes), records it on the first
pass, and flags the second as a repeat, for any confidences and any
prior seen-set not already containing the fingerprint, provided the
patch reaches the fingerprint step (diff-size and locality gates pass).
Separately, the orchestrator detects equal patch fingerprints across
iterations through its bounded history: a result whose fingerprint is
already recorded for its bug signature is demoted to a rejected
`REPEATED_FIX` attempt. -/
theorem repeated_fix_detection :
    (∀ (bug : BugReport) (file_content diff : String) (c₁ c₂ thr : ℚ)
        (maxd win : Nat) (seen : List String),
      generate_fix_fingerprint bug diff ∉ seen →
      check_diff_size diff maxd = true →
      (validate_patch_locality bug.line_number diff
          (if (splitlinesPy file_content).length < 100 then 100 else win)).1 = true →
      (fixValidate bug file_content diff c₂ thr maxd win
          (fixValidate bug file_content diff c₁ thr maxd win seen).2).1
        = FixOutcome.mk false true REPEATED_FIX (generate_fix_fingerprint bug diff))
    ∧ (∀ (history_fingerprints : List String) (r : FixOutcome),
        r.patch_fingerprint ≠ "" → r.patch_fingerprint ∈ history_fingerprints →
        orchestrator_repeat_check history_fingerprints r
          = { r with success := false, escalation_reason := REPEATED_FIX }) := by
  constructor
  · intro bug fc diff c₁ c₂ thr maxd win seen hnotin hsize hloc
    have hfp := generate_fix_fingerprint_ne_empty bug diff
    simp only [fixValidate, hsize, hloc, Bool.not_true, if_false,
      List.mem_append, List.mem_singleton, ite_false, ite_true]
    simp [hnotin, hfp]
  · intro hist r h1 h2
    unfold orchestrator_repeat_check
    rw [if_pos ⟨h1, h2⟩]

/-- C6 witness: the same one-line diff for the SYNTAX bug proposed
twice from an empty seen-set yields `REPEATED_FIX` on the second
attempt, and the orchestrator's history check demotes a result whose
fingerprint is already recorded. -/
theorem repeated_fix_detection_witness :
    (fixValidate syntaxBugMain1 "x" repeatDiff 1 0 50 5
        (fixValidate syntaxBugMain1 "x" repeatDiff 1 0 50 5 []).2).1
      = FixOutcome.mk false true REPEATED_FIX (generate_fix_fingerprint syntaxBugMain1 repeatDiff)
    ∧ orchestrator_repeat_check ["fp1"] (FixOutcome.mk true false "" "fp1")
      = FixOutcome.mk false false REPEATED_FIX "fp1" :=
  ⟨repeated_fix_detection.1 syntaxBugMain1 "x" repeatDiff 1 1 0 50 5 []
      (by simp) (by decide) (by decide),
   repeated_fix_detection.2 ["fp1"] (FixOutcome.mk true false "" "fp1")
      (by decide) (by decide)⟩

theorem splitlinesAux_cons_other (cur : List Char) (c : Char) (rest : List Char)
    (h1 : isLineBreak c = false) :
    splitlinesAux cur (c :: rest) = splitlinesAux (c :: cur) rest := by
  have h2 : c ≠ '\r' := by
    intro he
    rw [he] at h1
    exact absurd h1 (by decide)
  rw [splitlinesAux.eq_def]
  split
  · rename_i heq; simp at heq
  · rename_i heq; simp only [List.cons.injEq] at heq; exact absurd heq.1 h2
  · rename_i c' rest' heq
    simp only [List.cons.injEq] at heq
    obtain ⟨h3, h4⟩ := heq
    subst h3
    subst h4
    rw [h1]
    simp

theorem splitlinesAux_single :
    ∀ (l cur : List Char), (∀ c ∈ l, isLineBreak c = false) → cur.reverse ++ l ≠ [] →
      splitlinesAux cur l = [cur.reverse ++ l] := by
  intro l
  induction l with
  | nil =>
    intro cur _ hne
    rw [splitlinesAux.eq_def]
    simp only []
    rw [if_neg (by intro h; exact hne (by simp [h]))]
    simp
  | cons c rest ih =>
    intro cur hc hne
    have h1 := hc c (List.mem_cons_self _ _)
    rw [splitlinesAux_cons_other cur c rest h1,
      ih (c :: cur) (fun x hx => hc x (List.mem_cons_of_mem _ hx)) (by simp)]
    simp

theorem splitlinesAux_break :
    ∀ (l cur tail : List Char), (∀ c ∈ l, isLineBreak c = false) →
      splitlinesAux cur (l ++ '\n' :: tail)
        = (cur.reverse ++ l) :: splitlinesAux [] tail := by
  intro l
  induction l with
  | nil =>
    intro cur tail _
    simp only [List.nil_append, List.append_nil]
    rw [splitlinesAux.eq_def]
    split
    · rename_i heq; simp at heq
    · rename_i heq
      simp only [List.cons.injEq] at heq
      exact absurd heq.1 (by decide)
    · rename_i c' rest' heq
      simp only [List.cons.injEq] at heq
      obtain ⟨h3, h4⟩ := heq
      subst h3
      subst h4
      simp [isLineBreak]
  | cons c rest ih =>
    intro cur tail hc
    have h1 := hc c (List.mem_cons_self _ _)
    rw [List.cons_append, splitlinesAux_cons_other cur c _ h1,
      ih (c :: cur) tail (fun x hx => hc x (List.mem_cons_of_mem _ hx))]
    simp

theorem splitlines_intercalate :
    ∀ lines : List (List Char),
      (∀ l ∈ lines, l ≠ [] ∧ ∀ c ∈ l, isLineBreak c = false) →
      splitlinesAux [] (List.intercalate ['\n'] lines) = lines := by
  intro lines
  induction lines with
  | nil => intro _; simp [List.intercalate]; rfl
  | cons a rest ih =>
    intro h
    cases rest with
    | nil =>
      have ha := h a (List.mem_cons_self _ _)
      rw [show List.intercalate ['\n'] [a] = a by simp [List.intercalate]]
      rw [splitlinesAux_single a [] ha.2 (by simpa using ha.1)]
      simp
    | cons b rest2 =>
      have ha := h a (List.mem_cons_self _ _)
      rw [show List.intercalate ['\n'] (a :: b :: rest2)
            = a ++ '\n' :: List.intercalate ['\n'] (b :: rest2) by
          simp [List.intercalate, List.intersperse]]
      rw [splitlinesAux_break a [] _ ha.2]
      rw [ih (fun l hl => h l (List.mem_cons_of_mem _ hl))]
      simp

theorem natChars_ne_nil (n : Nat) : natChars n ≠ [] := by
  rw [natChars]
  split <;> simp

theorem natChars_digitChar : ∀ n : Nat, ∀ c ∈ natChars n, '0' ≤ c ∧ c ≤ '9' := by
  intro n
  induction n using Nat.strong_induction_on with
  | _ n ih =>
    rw [natChars]
    split
    · rename_i h10
      intro c hc
      rcases List.mem_singleton.mp hc with rfl
      interval_cases n <;> exact ⟨by decide, by decide⟩
    · rename_i h10
      intro c hc
      rcases List.mem_append.mp hc with hc | hc
      · exact ih (n / 10) (Nat.div_lt_self (by omega) (by norm_num)) c hc
      · rcases List.mem_singleton.mp hc with rfl
        have hm : n % 10 < 10 := Nat.mod_lt _ (by norm_num)
        generalize n % 10 = m at hm ⊢
        interval_cases m <;> exact ⟨by decide, by decide⟩

theorem takeWhile_digits_append (d : List Char) (c : Char) (rest : List Char)
    (hd : ∀ x ∈ d, '0' ≤ x ∧ x ≤ '9') (hc : ¬('0' ≤ c ∧ c ≤ '9')) :
    (d ++ c :: rest).takeWhile (fun x => decide ('0' ≤ x ∧ x ≤ '9')) = d := by
  induction d with
  | nil => simp [List.takeWhile_cons, hc]
  | cons x d ih =>
    have hx := hd x (List.mem_cons_self _ _)
    simp only [List.cons_append, List.takeWhile_cons, decide_eq_true_eq]
    rw [if_pos hx, ih (fun y hy => hd y (List.mem_cons_of_mem _ hy))]

theorem dropWhile_digits_append (d : List Char) (c : Char) (rest : List Char)
    (hd : ∀ x ∈ d, '0' ≤ x ∧ x ≤ '9') (hc : ¬('0' ≤ c ∧ c ≤ '9')) :
    (d ++ c :: rest).dropWhile (fun x => decide ('0' ≤ x ∧ x ≤ '9')) = c :: rest := by
  induction d with
  | nil => simp [List.dropWhile_cons, hc]
  | cons x d ih =>
    have hx := hd x (List.mem_cons_self _ _)
    simp only [List.cons_append, List.dropWhile_cons, decide_eq_true_eq]
    rw [if_pos hx, ih (fun y hy => hd y (List.mem_cons_of_mem _ hy))]

theorem spanDigits_append_cons (d : List Char) (c : Char) (rest : List Char)
    (hd : ∀ x ∈ d, '0' ≤ x ∧ x ≤ '9') (hc : ¬('0' ≤ c ∧ c ≤ '9')) :
    spanDigits (d ++ c :: rest) = (d, c :: rest) := by
  unfold spanDigits
  rw [takeWhile_digits_append d c rest hd hc, dropWhile_digits_append d c rest hd hc]

theorem parseHunkHeader_render (h : Hunk) :
    parseHunkHeader (renderHunkHeader h).data = some (h.oldStart, h.newStart) := by
  have hdata : (renderHunkHeader h).data
      = '@' :: '@' :: ' ' :: '-' ::
        (natChars h.oldStart ++ ',' ::
          (natChars (oldCount h.lines) ++ ' ' :: '+' ::
            (natChars h.newStart ++ ',' ::
              (natChars (newCount h.lines) ++ [' ', '@', '@'])))) := by
    have hts : ∀ n : Nat, (toString n : String) = Nat.repr n := fun _ => rfl
    simp only [renderHunkHeader, String.data_append, hts]
    rw [natRepr_data, natRepr_data, natRepr_data, natRepr_data]
    simp
  have e1 := spanDigits_append_cons (natChars h.oldStart) ','
    (natChars (oldCount h.lines) ++ ' ' :: '+' ::
      (natChars h.newStart ++ ',' :: (natChars (newCount h.lines) ++ [' ', '@', '@'])))
    (natChars_digitChar _) (by decide)
  have e2 := spanDigits_append_cons (natChars (oldCount h.lines)) ' '
    ('+' :: (natChars h.newStart ++ ',' :: (natChars (newCount h.lines) ++ [' ', '@', '@'])))
    (natChars_digitChar _) (by decide)
  have e3 := spanDigits_append_cons (natChars h.newStart) ','
    (natChars (newCount h.lines) ++ [' ', '@', '@'])
    (natChars_digitChar _) (by decide)
  have e4 := spanDigits_append_cons (natChars (newCount h.lines)) ' ' ['@', '@']
    (natChars_digitChar _) (by decide)
  rw [hdata]
  simp +decide [parseHunkHeader, skipCountThen, e1, e2, e3, e4, natChars_ne_nil,
    digitsToNat_natChars]

theorem parseHunkHeader_not_at (c : Char) (xs : List Char) (hc : c ≠ '@') :
    parseHunkHeader (c :: xs) = none := by
  rw [parseHunkHeader.eq_def]
  split
  · rename_i a b c' d rest heq
    simp only [List.cons.injEq] at heq
    rw [if_neg (fun hcond => hc (heq.1 ▸ hcond.1))]
  · rfl

theorem renderDiffLine_data_ctx (s : String) :
    (renderDiffLine (DiffLine.ctx s)).data = ' ' :: s.data := by
  show (" " ++ s).data = ' ' :: s.data
  rw [String.data_append]
  rfl

theorem renderDiffLine_data_del (s : String) :
    (renderDiffLine (DiffLine.del s)).data = '-' :: s.data := by
  show ("-" ++ s).data = '-' :: s.data
  rw [String.data_append]
  rfl

theorem renderDiffLine_data_ins (s : String) :
    (renderDiffLine (DiffLine.ins s)).data = '+' :: s.data := by
  show ("+" ++ s).data = '+' :: s.data
  rw [String.data_append]
  rfl

theorem extractGo_body :
    ∀ (lines : List DiffLine) (o n : Nat) (rest : List (List Char)),
      lines.all diffLineOK = true →
      extractGo o n (lines.map (fun dl => (renderDiffLine dl).data) ++ rest)
        = hunkChangedFrom o n lines
            ++ extractGo (o + oldCount lines) (n + newCount lines) rest := by
  intro lines
  induction lines with
  | nil =>
    intro o n rest _
    simp [hunkChangedFrom, oldCount, newCount]
  | cons dl lines ih =>
    intro o n rest hall
    rw [List.all_cons, Bool.and_eq_true] at hall
    have ho : ∀ k : Nat, o + 1 + k = o + (k + 1) := by omega
    have hn : ∀ k : Nat, n + 1 + k = n + (k + 1) := by omega
    cases dl with
    | ctx s =>
      have hph := parseHunkHeader_not_at ' ' s.data (by decide)
      have hp1 : ['-', '-', '-'].isPrefixOf (' ' :: s.data) = false := by
        simp +decide [List.isPrefixOf]
      have hp2 : ['+', '+', '+'].isPrefixOf (' ' :: s.data) = false := by
        simp +decide [List.isPrefixOf]
      simp only [List.map_cons, renderDiffLine_data_ctx, List.cons_append]
      rw [extractGo.eq_def]
      simp only [hph, hp1, hp2]
      simp +decide only []
      simp only [if_true, if_false]
      rw [ih (o + 1) (n + 1) rest hall.2]
      simp only [hunkChangedFrom, oldCount, newCount, List.countP_cons]
      simp only [Bool.false_eq_true, if_true, if_false, Nat.add_zero]
      simp only [ho, hn, List.cons_append]
    | del s =>
      have hph := parseHunkHeader_not_at '-' s.data (by decide)
      have hok := hall.1
      simp only [diffLineOK, Bool.and_eq_true, Bool.not_eq_true'] at hok
      have hp1 : ['-', '-', '-'].isPrefixOf ('-' :: s.data) = false := by
        have : (['-', '-', '-'].isPrefixOf ('-' :: s.data)) = sStartsWith s "--" := by
          simp [List.isPrefixOf, sStartsWith]
        rw [this, hok.2]
      have hp2 : ['+', '+', '+'].isPrefixOf ('-' :: s.data) = false := by
        simp +decide [List.isPrefixOf]
      simp only [List.map_cons, renderDiffLine_data_del, List.cons_append]
      rw [extractGo.eq_def]
      simp only [hph, hp1, hp2]
      simp +decide only []
      simp only [if_true, if_false]
      rw [ih (o + 1) n rest hall.2]
      simp only [hunkChangedFrom, oldCount, newCount, List.countP_cons]
      simp only [Bool.false_eq_true, if_true, if_false, Nat.add_zero]
      simp only [ho, hn, List.cons_append]
    | ins s =>
      have hph := parseHunkHeader_not_at '+' s.data (by decide)
      have hok := hall.1
      simp only [diffLineOK, Bool.and_eq_true, Bool.not_eq_true'] at hok
      have hp1 : ['-', '-', '-'].isPrefixOf ('+' :: s.data) = false := by
        simp +decide [List.isPrefixOf]
      have hp2 : ['+', '+', '+'].isPrefixOf ('+' :: s.data) = false := by
        have : (['+', '+', '+'].isPrefixOf ('+' :: s.data)) = sStartsWith s "++" := by
          simp [List.isPrefixOf, sStartsWith]
        rw [this, hok.2]
      simp only [List.map_cons, renderDiffLine_data_ins, List.cons_append]
      rw [extractGo.eq_def]
      simp only [hph, hp1, hp2]
      simp +decide only []
      simp only [if_true, if_false]
      rw [ih o (n + 1) rest hall.2]
      simp only [hunkChangedFrom, oldCount, newCount, List.countP_cons]
      simp only [Bool.false_eq_true, if_true, if_false, Nat.add_zero]
      simp only [ho, hn, List.cons_append]

theorem extractGo_hunks :
    ∀ (hunks : List Hunk), hunks.all hunkOK = true →
      ∀ (o n : Nat),
        extractGo o n ((hunks.flatMap renderHunk).map String.data)
          = diffChangedLines hunks := by
  intro hunks
  induction hunks with
  | nil =>
    intro _ o n
    simp only [List.flatMap_nil, List.map_nil, diffChangedLines]
    rfl
  | cons h t ih =>
    intro hall o n
    rw [List.all_cons, Bool.and_eq_true] at hall
    have hok := hall.1
    simp only [hunkOK, Bool.and_eq_true, decide_eq_true_eq] at hok
    simp only [List.flatMap_cons, List.map_append, renderHunk, List.map_cons,
      List.cons_append, List.map_map]
    rw [extractGo.eq_def]
    simp only [parseHunkHeader_render]
    have hcomp : String.data ∘ renderDiffLine = fun dl => (renderDiffLine dl).data := rfl
    rw [hcomp, extractGo_body h.lines h.oldStart h.newStart _ hok.2, ih hall.2]
    simp [diffChangedLines]

theorem hunkChangedFrom_ge :
    ∀ (lines : List DiffLine) (o n : Nat), 1 ≤ o → 1 ≤ n →
      ∀ x ∈ hunkChangedFrom o n lines, 1 ≤ x := by
  intro lines
  induction lines with
  | nil =>
    intro o n _ _ x hx
    simp [hunkChangedFrom] at hx
  | cons dl t ih =>
    intro o n ho hn x hx
    cases dl with
    | del s =>
      simp only [hunkChangedFrom] at hx
      rcases List.mem_cons.mp hx with rfl | hx'
      · exact ho
      · exact ih (o + 1) n (by omega) hn x hx'
    | ins s =>
      simp only [hunkChangedFrom] at hx
      rcases List.mem_cons.mp hx with rfl | hx'
      · exact hn
      · exact ih o (n + 1) ho (by omega) x hx'
    | ctx s =>
      simp only [hunkChangedFrom] at hx
      exact ih (o + 1) (n + 1) (by omega) (by omega) x hx

theorem diffChangedLines_ge (hunks : List Hunk) (hall : hunks.all hunkOK = true) :
    ∀ x ∈ diffChangedLines hunks, 1 ≤ x := by
  intro x hx
  rw [diffChangedLines, List.mem_flatMap] at hx
  obtain ⟨h, hh, hxh⟩ := hx
  have hok := List.all_eq_true.mp hall h hh
  simp only [hunkOK, Bool.and_eq_true, decide_eq_true_eq] at hok
  exact hunkChangedFrom_ge h.lines h.oldStart h.newStart hok.1.1 hok.1.2 x hxh

theorem digit_not_break {c : Char} (h : '0' ≤ c ∧ c ≤ '9') : isLineBreak c = false := by
  simp only [isLineBreak, decide_eq_false_iff_not]
  intro hor
  rcases hor with rfl | rfl | rfl | rfl | rfl | rfl | rfl | rfl | rfl | rfl <;>
    exact absurd h (by decide)

theorem noNewline_iff (s : String) :
    noNewline s = true ↔ ∀ c ∈ s.data, isLineBreak c = false := by
  simp [noNewline, List.all_eq_true]

theorem renderHunkHeader_data (h : Hunk) :
    (renderHunkHeader h).data
      = '@' :: '@' :: ' ' :: '-' ::
        (natChars h.oldStart ++ ',' ::
          (natChars (oldCount h.lines) ++ ' ' :: '+' ::
            (natChars h.newStart ++ ',' ::
              (natChars (newCount h.lines) ++ [' ', '@', '@'])))) := by
  have hts : ∀ n : Nat, (toString n : String) = Nat.repr n := fun _ => rfl
  simp only [renderHunkHeader, String.data_append, hts]
  rw [natRepr_data, natRepr_data, natRepr_data, natRepr_data]
  simp

theorem renderHunkHeader_no_newline (h : Hunk) :
    ∀ c ∈ (renderHunkHeader h).data, isLineBreak c = false := by
  rw [renderHunkHeader_data]
  intro c hc
  simp only [List.mem_cons, List.mem_append, List.mem_singleton] at hc
  rcases hc with rfl | rfl | rfl | rfl | hc
  · decide
  · decide
  · decide
  · decide
  rcases hc with hd | hc
  · exact digit_not_break (natChars_digitChar _ c hd)
  rcases hc with rfl | hc
  · decide
  rcases hc with hd | hc
  · exact digit_not_break (natChars_digitChar _ c hd)
  rcases hc with rfl | hc
  · decide
  rcases hc with rfl | hc
  · decide
  rcases hc with hd | hc
  · exact digit_not_break (natChars_digitChar _ c hd)
  rcases hc with rfl | hc
  · decide
  rcases hc with hd | hc
  · exact digit_not_break (natChars_digitChar _ c hd)
  rcases hc with rfl | hc
  · decide
  rcases hc with rfl | hc
  · decide
  rcases hc with rfl | hc
  · decide
  exact absurd hc (List.not_mem_nil c)

theorem renderDiffLine_ne_nil (dl : DiffLine) : (renderDiffLine dl).data ≠ [] := by
  cases dl
  · rw [renderDiffLine_data_ctx]; simp
  · rw [renderDiffLine_data_del]; simp
  · rw [renderDiffLine_data_ins]; simp

theorem renderDiffLine_no_newline (dl : DiffLine) (hok : diffLineOK dl = true) :
    ∀ c ∈ (renderDiffLine dl).data, isLineBreak c = false := by
  cases dl with
  | ctx s =>
    intro c hc
    rw [renderDiffLine_data_ctx] at hc
    rcases List.mem_cons.mp hc with rfl | hc
    · decide
    · exact (noNewline_iff s).mp (by simpa [diffLineOK] using hok) c hc
  | del s =>
    intro c hc
    rw [renderDiffLine_data_del] at hc
    simp only [diffLineOK, Bool.and_eq_true] at hok
    rcases List.mem_cons.mp hc with rfl | hc
    · decide
    · exact (noNewline_iff s).mp hok.1 c hc
  | ins s =>
    intro c hc
    rw [renderDiffLine_data_ins] at hc
    simp only [diffLineOK, Bool.and_eq_true] at hok
    rcases List.mem_cons.mp hc with rfl | hc
    · decide
    · exact (noNewline_iff s).mp hok.1 c hc

theorem splitlines_renderDiff (pA pB : String) (hunks : List Hunk)
    (hA : noNewline pA = true) (hB : noNewline pB = true)
    (hh : hunks.all hunkOK = true) :
    splitlinesAux [] (renderDiff pA pB hunks).data
      = (("--- a/" ++ pA) :: ("+++ b/" ++ pB) :: hunks.flatMap renderHunk).map
          String.data := by
  have hgood : ∀ l ∈ (("--- a/" ++ pA) :: ("+++ b/" ++ pB) :: hunks.flatMap renderHunk).map
      String.data, l ≠ [] ∧ ∀ c ∈ l, isLineBreak c = false := by
    intro l hl
    rw [List.mem_map] at hl
    obtain ⟨s, hs, rfl⟩ := hl
    rcases List.mem_cons.mp hs with rfl | hs
    · constructor
      · intro hemp
        rw [String.data_append] at hemp
        exact absurd (List.append_eq_nil.mp hemp).1 (by decide)
      · intro c hc
        rw [String.data_append, List.mem_append] at hc
        rcases hc with hc | hc
        · exact (by decide : ∀ c ∈ "--- a/".data, isLineBreak c = false) c hc
        · exact (noNewline_iff pA).mp hA c hc
    rcases List.mem_cons.mp hs with rfl | hs
    · constructor
      · intro hemp
        rw [String.data_append] at hemp
        exact absurd (List.append_eq_nil.mp hemp).1 (by decide)
      · intro c hc
        rw [String.data_append, List.mem_append] at hc
        rcases hc with hc | hc
        · exact (by decide : ∀ c ∈ "+++ b/".data, isLineBreak c = false) c hc
        · exact (noNewline_iff pB).mp hB c hc
    rw [List.mem_flatMap] at hs
    obtain ⟨h, hmem, hsh⟩ := hs
    have hok := List.all_eq_true.mp hh h hmem
    rw [renderHunk] at hsh
    rcases List.mem_cons.mp hsh with rfl | hsh
    · refine ⟨?_, renderHunkHeader_no_newline h⟩
      rw [renderHunkHeader_data]
      simp
    · rw [List.mem_map] at hsh
      obtain ⟨dl, hdl, rfl⟩ := hsh
      have hdlok : diffLineOK dl = true := by
        simp only [hunkOK, Bool.and_eq_true] at hok
        exact List.all_eq_true.mp hok.2 dl hdl
      exact ⟨renderDiffLine_ne_nil dl, renderDiffLine_no_newline dl hdlok⟩
  rw [renderDiff, joinNL]
  exact splitlines_intercalate _ hgood

theorem renderDiff_not_blank (pA pB : String) (hunks : List Hunk) :
    isBlank (renderDiff pA pB hunks) = false := by
  rw [renderDiff, joinNL, isBlank]
  show (List.intercalate ['\n']
      ((("--- a/" ++ pA) :: ("+++ b/" ++ pB) :: hunks.flatMap renderHunk).map
        String.data)).all isPySpace = false
  rw [show List.intercalate ['\n']
        ((("--- a/" ++ pA) :: ("+++ b/" ++ pB) :: hunks.flatMap renderHunk).map
          String.data)
      = ("--- a/" ++ pA).data ++ '\n' :: List.intercalate ['\n']
          ((("+++ b/" ++ pB) :: hunks.flatMap renderHunk).map String.data) by
    simp [List.intercalate, List.intersperse]]
  rw [String.data_append, List.append_assoc, List.all_append]
  rw [show ("--- a/".data).all isPySpace = false by decide, Bool.false_and]

theorem extractChangedLines_renderDiff (pA pB : String) (hunks : List Hunk)
    (hA : noNewline pA = true) (hB : noNewline pB = true)
    (hh : hunks.all hunkOK = true) :
    extractChangedLines (renderDiff pA pB hunks) = diffChangedLines hunks := by
  rw [extractChangedLines, splitlines_renderDiff pA pB hunks hA hB hh]
  simp only [List.map_cons]
  have e1 : ("--- a/" ++ pA).data = '-' :: '-' :: '-' :: ' ' :: 'a' :: '/' :: pA.data := by
    rw [String.data_append]; rfl
  have e2 : ("+++ b/" ++ pB).data = '+' :: '+' :: '+' :: ' ' :: 'b' :: '/' :: pB.data := by
    rw [String.data_append]; rfl
  have hph1 : parseHunkHeader ('-' :: '-' :: '-' :: ' ' :: 'a' :: '/' :: pA.data) = none :=
    parseHunkHeader_not_at _ _ (by decide)
  have hp1 : ['-', '-', '-'].isPrefixOf
      ('-' :: '-' :: '-' :: ' ' :: 'a' :: '/' :: pA.data) = true := by
    simp [List.isPrefixOf]
  rw [e1, extractGo.eq_def]
  simp only [hph1, hp1]
  simp +decide only []
  simp only [if_true]
  have hph2 : parseHunkHeader ('+' :: '+' :: '+' :: ' ' :: 'b' :: '/' :: pB.data) = none :=
    parseHunkHeader_not_at _ _ (by decide)
  have hp2 : ['+', '+', '+'].isPrefixOf
      ('+' :: '+' :: '+' :: ' ' :: 'b' :: '/' :: pB.data) = true := by
    simp [List.isPrefixOf]
  rw [e2, extractGo.eq_def]
  simp only [hph2, hp2]
  simp +decide only []
  simp only [if_true]
  exact extractGo_hunks hunks hh 0 0

theorem validate_patch_locality_renderDiff (pA pB : String) (hunks : List Hunk)
    (failing window : Nat)
    (hA : noNewline pA = true) (hB : noNewline pB = true)
    (hh : hunks.all hunkOK = true) :
    validate_patch_locality failing (renderDiff pA pB hunks) window
      = (if diffChangedLines hunks = [] then (true, "No line changes detected")
         else if (diffChangedLines hunks).filter
             (fun ln => decide (ln < max 1 (failing - window) ∨ ln > failing + window))
             ≠ [] then
           (false, "Patch modifies lines outside locality window")
         else (true, "All changes within locality window")) := by
  simp only [validate_patch_locality, renderDiff_not_blank pA pB hunks,
    Bool.false_eq_true, if_false,
    extractChangedLines_renderDiff pA pB hunks hA hB hh]

/-- C5: for every well-formed unified diff (rendered from structured hunks
with positive start lines and unambiguous body lines), the locality check
accepts exactly when every changed line — the deletions' absolute old-file
numbers and the insertions' absolute new-file numbers, obtained from the
hunk headers — lies within `[failing_line − window, failing_line + window]`
(as integers); when it rejects, the reason is the locality-violation
message; and in the boundary scenario with failing line 10 and window 5, a
patch changing only line 11 passes, while a patch changing line
`failing_line + window + 1 = 16` is rejected by the fix-agent pipeline with
`escalation_reason = LOCALITY_VIOLATION`. -/
theorem locality_window_spec (pA pB : String) (hunks : List Hunk)
    (failing window : Nat)
    (hA : noNewline pA = true) (hB : noNewline pB = true)
    (hh : hunks.all hunkOK = true) :
    ((validate_patch_locality failing (renderDiff pA pB hunks) window).1 = true
      ↔ ∀ ln ∈ diffChangedLines hunks,
          (failing : ℤ) - (window : ℤ) ≤ (ln : ℤ)
            ∧ (ln : ℤ) ≤ (failing : ℤ) + (window : ℤ))
    ∧ ((validate_patch_locality failing (renderDiff pA pB hunks) window).1 = false →
        (validate_patch_locality failing (renderDiff pA pB hunks) window).2
          = "Patch modifies lines outside locality window")
    ∧ (validate_patch_locality 10 (renderDiff "calc.py" "calc.py" [hunkWithin]) 5).1 = true
    ∧ (fixValidate localityBug bigFile (renderDiff "calc.py" "calc.py" [hunkBeyond])
          1 (mkRat 7 10) 50 5 []).1
        = ⟨false, true, LOCALITY_VIOLATION, ""⟩ := by
  have hge := diffChangedLines_ge hunks hh
  have hkey : ∀ ln ∈ diffChangedLines hunks,
      ((decide (ln < max 1 (failing - window) ∨ ln > failing + window)) = false
        ↔ ((failing : ℤ) - (window : ℤ) ≤ (ln : ℤ)
            ∧ (ln : ℤ) ≤ (failing : ℤ) + (window : ℤ))) := by
    intro ln hln
    have h1 := hge ln hln
    rw [decide_eq_false_iff_not]
    omega
  rw [validate_patch_locality_renderDiff pA pB hunks failing window hA hB hh]
  refine ⟨?_, ?_, by decide, by decide⟩
  · by_cases hLnil : diffChangedLines hunks = []
    · rw [if_pos hLnil]
      simp [hLnil]
    · rw [if_neg hLnil]
      by_cases hfil : (diffChangedLines hunks).filter
          (fun ln => decide (ln < max 1 (failing - window) ∨ ln > failing + window)) = []
      · rw [if_neg (fun hcon => hcon hfil)]
        constructor
        · intro _ ln hln
          have hnp := List.filter_eq_nil_iff.mp hfil ln hln
          exact (hkey ln hln).mp (Bool.eq_false_iff.mpr hnp)
        · intro _
          rfl
      · rw [if_pos hfil]
        constructor
        · intro habs
          exact absurd habs (by simp)
        · intro hall
          exfalso
          apply hfil
          apply List.filter_eq_nil_iff.mpr
          intro ln hln
          have hfalse := (hkey ln hln).mpr (hall ln hln)
          rw [hfalse]
          simp
  · by_cases hLnil : diffChangedLines hunks = []
    · rw [if_pos hLnil]
      intro habs
      simp at habs
    · rw [if_neg hLnil]
      by_cases hfil : (diffChangedLines hunks).filter
          (fun ln => decide (ln < max 1 (failing - window) ∨ ln > failing + window)) = []
      · rw [if_neg (fun hcon => hcon hfil)]
        intro habs
        simp at habs
      · rw [if_pos hfil]
        intro _
        rfl

/-- C5 witness: the theorem instantiated at the boundary scenario — the
single hunk changing line 16 with failing line 10 and window 5. -/
theorem locality_window_spec_witness :
    ((validate_patch_locality 10 (renderDiff "calc.py" "calc.py" [hunkBeyond]) 5).1 = true
      ↔ ∀ ln ∈ diffChangedLines [hunkBeyond],
          (10 : ℤ) - (5 : ℤ) ≤ (ln : ℤ) ∧ (ln : ℤ) ≤ (10 : ℤ) + (5 : ℤ))
    ∧ ((validate_patch_locality 10 (renderDiff "calc.py" "calc.py" [hunkBeyond]) 5).1 = false →
        (validate_patch_locality 10 (renderDiff "calc.py" "calc.py" [hunkBeyond]) 5).2
          = "Patch modifies lines outside locality window")
    ∧ (validate_patch_locality 10 (renderDiff "calc.py" "calc.py" [hunkWithin]) 5).1 = true
    ∧ (fixValidate localityBug bigFile (renderDiff "calc.py" "calc.py" [hunkBeyond])
          1 (mkRat 7 10) 50 5 []).1
        = ⟨false, true, LOCALITY_VIOLATION, ""⟩ :=
  locality_window_spec "calc.py" "calc.py" [hunkBeyond] 10 5
    (by decide) (by decide) (by decide)

end HealAgent
